import Mathlib

/-!
# Aurora bands (`flow-field.js`): noise engine, band geometry and frame driver

A shallow embedding of `src/flow-field.js`.

* JavaScript numbers are modelled over exact arithmetic: a linearly ordered
  field `α` with a floor function (`ℝ`, or `ℚ` when a value has to be
  computed).  A JavaScript value that is not a real number (`undefined`,
  `NaN`, the quotient `0 / 0`) is `none`.
* JavaScript arrays are lists of slots; reading outside the array or reading a
  hole gives `undefined`, and an element assignment beyond the end extends the
  array.
* `Math.random` is a stream `rnd : ℕ → α` of draws, consumed in program order.
-/

set_option linter.unusedSectionVars false
set_option linter.unusedVariables false

namespace FlowField

/-! ## JavaScript arrays -/

/-- Element read `xs[i]`: `undefined` (`none`) outside the array or at a hole. -/
def jsRead {β : Type} (xs : List (Option β)) (i : ℕ) : Option β :=
  (xs.get? i).join

/-- Element assignment `xs[i] = v`: overwrites slot `i` inside the array;
at or beyond the end the array grows to length `i + 1`, the slots in between
being holes. -/
def jsWrite {β : Type} (xs : List (Option β)) (i : ℕ) (v : Option β) : List (Option β) :=
  if i < xs.length then xs.set i v
  else xs ++ List.replicate (i - xs.length) none ++ [v]

/-- Division `a / b` of JavaScript numbers: a quotient by zero is `NaN` or an
infinity, not a real number. -/
def jsDiv {α : Type} [LinearOrderedField α] (a b : α) : Option α :=
  if b = 0 then none else some (a / b)

/-! ## The noise engine (`const noise = { ... }`) -/

namespace noise

/-- The two tables of the `noise` object. -/
structure State (α : Type) where
  perm : List (Option ℕ)
  grad : List (Option α)

/-- The object literal: `perm: [], grad: []`. -/
def initial (α : Type) : State α := ⟨[], []⟩

variable {α : Type} [LinearOrderedField α] [FloorRing α]

/-- First loop of `init`, after the iterations `i = 0 .. n-1`:
`perm[i] = i; grad[i] = Math.random() * 2 - 1`.  Iteration `i` takes draw `i`. -/
def fillLoop (rnd : ℕ → α) : ℕ → State α → State α
  | 0, s => s
  | n + 1, s =>
    let s1 := fillLoop rnd n s
    { perm := jsWrite s1.perm n (some n)
      grad := jsWrite s1.grad n (some (rnd n * 2 - 1)) }

/-- Index drawn by the shuffle at position `i` from draw `r`:
`Math.floor(Math.random() * (i + 1))`. -/
def shuffleIndex (r : α) (i : ℕ) : ℕ :=
  ⌊r * ((i : α) + 1)⌋.toNat

/-- The destructuring swap `[p[i], p[j]] = [p[j], p[i]]`: both reads happen
first, then `p[i]` is assigned, then `p[j]`. -/
def swap (p : List (Option ℕ)) (i j : ℕ) : List (Option ℕ) :=
  let a := jsRead p j
  let b := jsRead p i
  jsWrite (jsWrite p i a) j b

/-- Second loop of `init` (Fisher–Yates), after its first `k` iterations
`i = 255, 254, .., 256 - k`.  The iteration at `i = 255 - k` takes draw
`256 + k` (the first loop took draws `0 .. 255`). -/
def shuffleLoop (rnd : ℕ → α) : ℕ → List (Option ℕ) → List (Option ℕ)
  | 0, p => p
  | k + 1, p =>
    let p1 := shuffleLoop rnd k p
    let i := 255 - k
    swap p1 i (shuffleIndex (rnd (256 + k)) i)

/-- Third loop of `init`, after the iterations `i = 0 .. n-1`:
`perm[256 + i] = perm[i]; grad[256 + i] = grad[i]`. -/
def dupLoop : ℕ → State α → State α
  | 0, s => s
  | n + 1, s =>
    let s1 := dupLoop n s
    { perm := jsWrite s1.perm (256 + n) (jsRead s1.perm n)
      grad := jsWrite s1.grad (256 + n) (jsRead s1.grad n) }

/-- The method `noise.init()`, run on the tables `s` with the random stream `rnd`. -/
def init (rnd : ℕ → α) (s : State α) : State α :=
  let s1 := fillLoop rnd 256 s
  let s2 : State α := { perm := shuffleLoop rnd 255 s1.perm, grad := s1.grad }
  dupLoop 256 s2

/-- The method `fade(t)`. -/
def fade (t : α) : α :=
  t * t * t * (t * (t * 6 - 15) + 10)

/-- The method `lerp(a, b, t)`. -/
def lerp (a b t : α) : α :=
  a + t * (b - a)

/-- Lattice index `Math.floor(x) & 255`: the low eight bits of the integer part. -/
def cell (x : α) : ℕ :=
  (⌊x⌋ % 256).toNat

/-- Table lookup plus offset, `this.perm[a] + b`, where the index `a` may itself
be `NaN`; an `undefined` entry makes the sum `NaN`. -/
def permAt (s : State α) (a : Option ℕ) (b : ℕ) : Option ℕ :=
  a.bind fun i => (jsRead s.perm i).map fun v => v + b

/-- Table lookup `this.grad[a]`, where the index `a` may be `NaN`. -/
def gradAt (s : State α) (a : Option ℕ) : Option α :=
  a.bind fun i => jsRead s.grad i

/-- The method `lerp` applied to values that may be `undefined` or `NaN`:
the result is then `NaN`. -/
def lerpJS (a b : Option α) (t : α) : Option α :=
  a.bind fun a => b.map fun b => lerp a b t

/-- Index increment `a + 1` on a value that may be `NaN`. -/
def succJS (a : Option ℕ) : Option ℕ :=
  a.map fun i => i + 1

/-- The method `get(x, y, z)`.  A table read that yields `undefined` makes the
result `NaN` (`none`). -/
def get (s : State α) (x y z : α) : Option α :=
  let X := cell x
  let Y := cell y
  let Z := cell z
  let x := x - (⌊x⌋ : α)
  let y := y - (⌊y⌋ : α)
  let z := z - (⌊z⌋ : α)
  let u := fade x
  let v := fade y
  let w := fade z
  let A := permAt s (some X) Y
  let AA := permAt s A Z
  let AB := permAt s (succJS A) Z
  let B := permAt s (some (X + 1)) Y
  let BA := permAt s B Z
  let BB := permAt s (succJS B) Z
  lerpJS
    (lerpJS
      (lerpJS (gradAt s AA) (gradAt s BA) u)
      (lerpJS (gradAt s AB) (gradAt s BB) u) v)
    (lerpJS
      (lerpJS (gradAt s (succJS AA)) (gradAt s (succJS BA)) u)
      (lerpJS (gradAt s (succJS AB)) (gradAt s (succJS BB)) u) v)
    w

/-! ### Table invariants and total lookups -/

/-- Every slot `0 .. 511` of both tables holds a value, and the `perm` values
are below 256: the condition under which no lookup of `get` is `undefined`. -/
def Lookups (s : State α) : Prop :=
  (∀ k, k < 512 → ∃ v, jsRead s.perm k = some v ∧ v < 256) ∧
    (∀ k, k < 512 → ∃ g, jsRead s.grad k = some g)

/-- The upper half of each table repeats the lower half. -/
def Duplicated (s : State α) : Prop :=
  ∀ i, i < 256 → jsRead s.perm (i + 256) = jsRead s.perm i ∧
    jsRead s.grad (i + 256) = jsRead s.grad i

/-- Every gradient held in the table lies in `[-1, 1]`. -/
def GradBounded (s : State α) : Prop :=
  ∀ k g, jsRead s.grad k = some g → -1 ≤ g ∧ g ≤ 1

/-- The table invariant of the data model: both tables have 512 entries, all
present, and the `perm` entries are in `[0, 255]`. -/
def TableInv (s : State α) : Prop :=
  s.perm.length = 512 ∧ s.grad.length = 512 ∧ Lookups s

/-- The number held in `perm[k]` (0 when the slot is `undefined`). -/
def permVal (s : State α) (k : ℕ) : ℕ := (jsRead s.perm k).getD 0

/-- The number held in `grad[k]` (0 when the slot is `undefined`). -/
def gradVal (s : State α) (k : ℕ) : α := (jsRead s.grad k).getD 0

/-- The value `get` computes when every lookup succeeds: the body of `get`
with the table entries as plain numbers. -/
def getVal (s : State α) (x y z : α) : α :=
  let X := cell x
  let Y := cell y
  let Z := cell z
  let u := fade (x - (⌊x⌋ : α))
  let v := fade (y - (⌊y⌋ : α))
  let w := fade (z - (⌊z⌋ : α))
  let A := permVal s X + Y
  let AA := permVal s A + Z
  let AB := permVal s (A + 1) + Z
  let B := permVal s (X + 1) + Y
  let BA := permVal s B + Z
  let BB := permVal s (B + 1) + Z
  lerp
    (lerp
      (lerp (gradVal s AA) (gradVal s BA) u)
      (lerp (gradVal s AB) (gradVal s BB) u) v)
    (lerp
      (lerp (gradVal s (AA + 1)) (gradVal s (BA + 1)) u)
      (lerp (gradVal s (AB + 1)) (gradVal s (BB + 1)) u) v)
    w

/-- The gradient at the lattice corner `(I, J, K)`:
`grad[perm[perm[I & 255] + (J & 255)] + (K & 255)]`. -/
def corner (s : State α) (I J K : ℤ) : α :=
  gradVal s (permVal s (permVal s (I % 256).toNat + (J % 256).toNat) + (K % 256).toNat)

/-- Interpolation of a lattice function `c` with the fade weights, along `x`,
then `y`, then `z`, in the unit cube that contains `(x, y, z)`. -/
def trilerp (c : ℤ → ℤ → ℤ → α) (x y z : α) : α :=
  let u := fade (x - (⌊x⌋ : α))
  let v := fade (y - (⌊y⌋ : α))
  let w := fade (z - (⌊z⌋ : α))
  lerp
    (lerp
      (lerp (c ⌊x⌋ ⌊y⌋ ⌊z⌋) (c (⌊x⌋ + 1) ⌊y⌋ ⌊z⌋) u)
      (lerp (c ⌊x⌋ (⌊y⌋ + 1) ⌊z⌋) (c (⌊x⌋ + 1) (⌊y⌋ + 1) ⌊z⌋) u) v)
    (lerp
      (lerp (c ⌊x⌋ ⌊y⌋ (⌊z⌋ + 1)) (c (⌊x⌋ + 1) ⌊y⌋ (⌊z⌋ + 1)) u)
      (lerp (c ⌊x⌋ (⌊y⌋ + 1) (⌊z⌋ + 1)) (c (⌊x⌋ + 1) (⌊y⌋ + 1) (⌊z⌋ + 1)) u) v)
    w

/-- The indices at which `get(x, y, z)` reads `this.perm`, in program order:
`X`, `A`, `A + 1`, `X + 1`, `B`, `B + 1` (`none` for an index that is `NaN`). -/
def permIndices (s : State α) (x y z : α) : List (Option ℕ) :=
  let X := cell x
  let Y := cell y
  let A := permAt s (some X) Y
  let B := permAt s (some (X + 1)) Y
  [some X, A, succJS A, some (X + 1), B, succJS B]

/-- The indices at which `get(x, y, z)` reads `this.grad`, in program order:
`AA`, `BA`, `AB`, `BB`, then each of them `+ 1`. -/
def gradIndices (s : State α) (x y z : α) : List (Option ℕ) :=
  let X := cell x
  let Y := cell y
  let Z := cell z
  let A := permAt s (some X) Y
  let AA := permAt s A Z
  let AB := permAt s (succJS A) Z
  let B := permAt s (some (X + 1)) Y
  let BA := permAt s B Z
  let BB := permAt s (succJS B) Z
  [AA, BA, AB, BB, succJS AA, succJS BA, succJS AB, succJS BB]

/-- The eight values `get(x, y, z)` reads from `this.grad`. -/
def gradReads (s : State α) (x y z : α) : List (Option α) :=
  (gradIndices s x y z).map (gradAt s)

/-- One step of a method of `noise`: the read `this.perm[a] + b`, returning
the value and the tables as the step leaves them. -/
def permStep (s : State α) (a : Option ℕ) (b : ℕ) : Option ℕ × State α :=
  (permAt s a b, s)

/-- One step of a method of `noise`: the read `this.grad[a]`, returning the
value and the tables as the step leaves them. -/
def gradStep (s : State α) (a : Option ℕ) : Option α × State α :=
  (gradAt s a, s)

/-- The method `get(x, y, z)` as a state-passing program: each statement of
the body in program order, the tables threaded through every table access;
the result is the returned value and the tables after the call. -/
def getRun (s0 : State α) (x y z : α) : Option α × State α :=
  let X := cell x
  let Y := cell y
  let Z := cell z
  let x := x - (⌊x⌋ : α)
  let y := y - (⌊y⌋ : α)
  let z := z - (⌊z⌋ : α)
  let u := fade x
  let v := fade y
  let w := fade z
  let A := permStep s0 (some X) Y
  let AA := permStep A.2 A.1 Z
  let AB := permStep AA.2 (succJS A.1) Z
  let B := permStep AB.2 (some (X + 1)) Y
  let BA := permStep B.2 B.1 Z
  let BB := permStep BA.2 (succJS B.1) Z
  let gAA := gradStep BB.2 AA.1
  let gBA := gradStep gAA.2 BA.1
  let gAB := gradStep gBA.2 AB.1
  let gBB := gradStep gAB.2 BB.1
  let gAA1 := gradStep gBB.2 (succJS AA.1)
  let gBA1 := gradStep gAA1.2 (succJS BA.1)
  let gAB1 := gradStep gBA1.2 (succJS AB.1)
  let gBB1 := gradStep gAB1.2 (succJS BB.1)
  (lerpJS
    (lerpJS (lerpJS gAA.1 gBA.1 u) (lerpJS gAB.1 gBB.1 u) v)
    (lerpJS (lerpJS gAA1.1 gBA1.1 u) (lerpJS gAB1.1 gBB1.1 u) v)
    w, gBB1.2)

/-- Random stream of the worked example: the 256 gradient draws are
`0/256, 1/256, ..`, every shuffle draw is `0`. -/
def rndExample : ℕ → ℚ := fun n => if n < 256 then (n : ℚ) / 256 else 0

end noise

/-! ## Bands (`class Band`) -/

/-- Arithmetic on two JavaScript numbers: `NaN` if either operand is. -/
def jsOp {α : Type} (f : α → α → α) (a b : Option α) : Option α :=
  a.bind fun x => b.map fun y => f x y

/-- The fields a `Band` holds after its constructor ran; `noiseOffset` is the
constructor's `Math.random() * 1000`. -/
structure Band (α : Type) where
  r : ℕ
  g : ℕ
  b : ℕ
  alpha : α
  bandWidth : α
  yBase : α
  speed : α
  freq : α
  amp : α
  noiseOffset : α

/-- A point `{ x, y }` pushed by `draw`; a coordinate is `none` when it is `NaN`. -/
structure Point (α : Type) where
  x : Option α
  y : Option α

/-- The function `resize`, on one dimension: `Math.ceil(window.innerWidth * 0.5)`
for a window of `inner` pixels.  The working width and height are the
non-negative integers it returns. -/
def resize (inner : ℕ) : ℕ :=
  ⌈(inner : ℚ) * 0.5⌉.toNat

/-- A call made on the 2-D context `ctx` or on the gradient it created
(`fillStyle` is the assignment `ctx.fillStyle = gradient`).  `draw` makes no
`stroke` call; the constructor is there to say so. -/
inductive Cmd (α : Type) where
  | beginPath
  | moveTo (x y : Option α)
  | lineTo (x y : Option α)
  | quadraticCurveTo (cpx cpy x y : Option α)
  | closePath
  | createLinearGradient (x0 y0 x1 y1 : Option α)
  | addColorStop (offset : α) (r g b : ℕ) (a : α)
  | fillStyle
  | fill
  | stroke

/-- Offset and alpha of an `addColorStop` call. -/
def Cmd.stop {α : Type} : Cmd α → Option (α × α)
  | Cmd.addColorStop o _ _ _ a => some (o, a)
  | _ => none

/-- Whether a call is a `quadraticCurveTo`. -/
def Cmd.isCurve {α : Type} : Cmd α → Bool
  | Cmd.quadraticCurveTo _ _ _ _ => true
  | _ => false

/-- The band `new Band(bandDefs[0])`, its constructor's `Math.random()`
returning `r`: `this.noiseOffset = Math.random() * 1000`. -/
def firstBand (r : ℚ) : Band ℚ :=
  { r := 56, g := 200, b := 97, alpha := 0.22, bandWidth := 0.35, yBase := 0.12,
    speed := 1.0, freq := 1.0, amp := 0.10, noiseOffset := r * 1000 }

namespace Band

variable {α : Type} [LinearOrderedField α] [FloorRing α]

/-- In `draw`: `const steps = Math.ceil(width / 3)`. -/
def steps (α : Type) [LinearOrderedField α] [FloorRing α] (width : ℕ) : ℤ :=
  ⌈(width : α) / 3⌉

/-- In `draw`: `const t = time * 0.002 * this.speed`. -/
def t (b : Band α) (time : α) : α :=
  time * 0.002 * b.speed

/-- In `draw`: `const bandH = this.bandWidth * height`. -/
def bandH (b : Band α) (height : ℕ) : α :=
  b.bandWidth * (height : α)

/-- In the loop of `draw`: `const xNorm = i / steps`. -/
def xNorm (width i : ℕ) : Option α :=
  jsDiv (i : α) ((steps α width : ℤ) : α)

/-- In the loop of `draw`: `const x = (i / steps) * width`. -/
def x (width i : ℕ) : Option α :=
  (xNorm width i : Option α).map fun q => q * (width : α)

/-- In the loop of `draw`: `const n1 = noise.get(xNorm * this.freq * 2 + this.noiseOffset, t, 0)`. -/
def n1 (e : noise.State α) (b : Band α) (width : ℕ) (time : α) (i : ℕ) : Option α :=
  (xNorm width i : Option α).bind fun xn =>
    noise.get e (xn * b.freq * 2 + b.noiseOffset) (t b time) 0

/-- In the loop of `draw`:
`const n2 = noise.get(xNorm * this.freq * 4 + this.noiseOffset + 50, t * 1.5, 0.5) * 0.5`. -/
def n2 (e : noise.State α) (b : Band α) (width : ℕ) (time : α) (i : ℕ) : Option α :=
  ((xNorm width i : Option α).bind fun xn =>
    noise.get e (xn * b.freq * 4 + b.noiseOffset + 50) (t b time * 1.5) 0.5).map
      fun n => n * 0.5

/-- In the loop of `draw`:
`const n3 = noise.get(xNorm * this.freq * 8 + this.noiseOffset + 100, t * 0.7, 1.0) * 0.25`. -/
def n3 (e : noise.State α) (b : Band α) (width : ℕ) (time : α) (i : ℕ) : Option α :=
  ((xNorm width i : Option α).bind fun xn =>
    noise.get e (xn * b.freq * 8 + b.noiseOffset + 100) (t b time * 0.7) 1.0).map
      fun n => n * 0.25

/-- In the loop of `draw`: `const waveOffset = (n1 + n2 + n3) * this.amp * height`
followed by `const yCenter = this.yBase * height + waveOffset`. -/
def yCenter (e : noise.State α) (b : Band α) (width height : ℕ) (time : α) (i : ℕ) :
    Option α :=
  let waveOffset :=
    (jsOp (fun p q => p + q) (jsOp (fun p q => p + q) (n1 e b width time i) (n2 e b width time i))
      (n3 e b width time i)).map fun n => n * b.amp * (height : α)
  waveOffset.map fun wo => b.yBase * (height : α) + wo

/-- In the loop of `draw`:
`const thickNoise = noise.get(xNorm * 3 + this.noiseOffset + 200, t * 0.5, 2.0)`. -/
def thickNoise (e : noise.State α) (b : Band α) (width : ℕ) (time : α) (i : ℕ) : Option α :=
  (xNorm width i : Option α).bind fun xn =>
    noise.get e (xn * 3 + b.noiseOffset + 200) (t b time * 0.5) 2.0

/-- In the loop of `draw`: `const localThick = bandH * (0.8 + thickNoise * 0.4)`. -/
def localThick (e : noise.State α) (b : Band α) (width height : ℕ) (time : α) (i : ℕ) :
    Option α :=
  (thickNoise e b width time i).map fun tn => bandH b height * (0.8 + tn * 0.4)

/-- The point pushed on `topPoints` by iteration `i`: `{ x, y: yCenter - localThick / 2 }`. -/
def topPoint (e : noise.State α) (b : Band α) (width height : ℕ) (time : α) (i : ℕ) :
    Point α :=
  { x := x width i
    y := jsOp (fun c l => c - l / 2) (yCenter e b width height time i)
      (localThick e b width height time i) }

/-- The point pushed on `botPoints` by iteration `i`: `{ x, y: yCenter + localThick / 2 }`. -/
def botPoint (e : noise.State α) (b : Band α) (width height : ℕ) (time : α) (i : ℕ) :
    Point α :=
  { x := x width i
    y := jsOp (fun c l => c + l / 2) (yCenter e b width height time i)
      (localThick e b width height time i) }

/-- The sampling loop of `draw`, `for (let i = 0; i <= steps; i++)`: the arrays
`topPoints` and `botPoints` it leaves.  It runs for `i = 0 .. steps`, one push
on each array per iteration. -/
def samples (e : noise.State α) (b : Band α) (width height : ℕ) (time : α) :
    List (Point α) × List (Point α) :=
  let iters := List.range (steps α width + 1).toNat
  (iters.map (topPoint e b width height time), iters.map (botPoint e b width height time))

/-- In `draw`: the five `gradient.addColorStop(offset, rgba(r, g, b, alpha))`
calls, in order. -/
def colorStops (b : Band α) : List (Cmd α) :=
  [Cmd.addColorStop 0 b.r b.g b.b 0,
    Cmd.addColorStop 0.2 b.r b.g b.b (b.alpha * 0.6),
    Cmd.addColorStop 0.5 b.r b.g b.b b.alpha,
    Cmd.addColorStop 0.8 b.r b.g b.b (b.alpha * 0.6),
    Cmd.addColorStop 1 b.r b.g b.b 0]

/-- In `draw`: `pts.reduce((s, p) => s + p.y, 0) / pts.length`. -/
def avgY (pts : List (Point α)) : Option α :=
  (pts.foldl (fun s p => jsOp (fun a c => a + c) s p.y) (some 0)).bind
    fun total => jsDiv total (pts.length : α)

/-- The midpoint `(p + q) / 2` of two coordinates. -/
def mid (p q : Option α) : Option α :=
  jsOp (fun a c => (a + c) / 2) p q

/-- In `draw`: the loop `for (let i = 1; i < topPoints.length; i++)`, after
its first `k` iterations (`i = 1 .. k`):
`prev = topPoints[i - 1]; curr = topPoints[i];`
`ctx.quadraticCurveTo(prev.x, prev.y, (prev.x + curr.x) / 2, (prev.y + curr.y) / 2)`.
Reading a field of a missing point throws (`none`). -/
def topCurves (tops : List (Point α)) : ℕ → Option (List (Cmd α))
  | 0 => some []
  | k + 1 =>
    (topCurves tops k).bind fun cs =>
      (tops.get? k).bind fun prev =>
        (tops.get? (k + 1)).map fun curr =>
          cs ++ [Cmd.quadraticCurveTo prev.x prev.y (mid prev.x curr.x) (mid prev.y curr.y)]

/-- In `draw`: the loop `for (let i = botPoints.length - 1; i >= 0; i--)`,
after its first `k` iterations (`i = length - 1, .., length - k`): at
`i === botPoints.length - 1` a `lineTo(botPoints[i])`, otherwise
`prev = botPoints[i + 1]; curr = botPoints[i];` and the same
`quadraticCurveTo` as on the top edge. -/
def botEdge (bots : List (Point α)) : ℕ → Option (List (Cmd α))
  | 0 => some []
  | k + 1 =>
    (botEdge bots k).bind fun cs =>
      let i := bots.length - 1 - k
      if i = bots.length - 1 then
        (bots.get? i).map fun p => cs ++ [Cmd.lineTo p.x p.y]
      else
        (bots.get? (i + 1)).bind fun prev =>
          (bots.get? i).map fun curr =>
            cs ++ [Cmd.quadraticCurveTo prev.x prev.y (mid prev.x curr.x)
              (mid prev.y curr.y)]

/-- In `draw`: the calls from `ctx.moveTo(topPoints[0].x, topPoints[0].y)` to
`ctx.closePath()`, that is the path built after the second `beginPath`. -/
def path (tops bots : List (Point α)) : Option (List (Cmd α)) :=
  (tops.get? 0).bind fun p0 =>
    (topCurves tops (tops.length - 1)).bind fun cs =>
      (tops.get? (tops.length - 1)).bind fun pl =>
        (botEdge bots bots.length).map fun bs =>
          [Cmd.moveTo p0.x p0.y] ++ cs ++ [Cmd.lineTo pl.x pl.y] ++ bs ++ [Cmd.closePath]

/-- The method `draw` after its sampling loop, together with the two calls
before the loop: every call made on `ctx` and on the gradient, in order.
The result is `none` when `draw` throws: `ctx.createLinearGradient` takes
finite numbers only and raises a `TypeError` when an average it is given is
`NaN`, before any colour stop is added; reading a field of a missing point
raises one too.  (`moveTo`, `lineTo` and `quadraticCurveTo` accept `NaN` and
do not throw.) -/
def render (b : Band α) (height : ℕ) (tops bots : List (Point α)) : Option (List (Cmd α)) :=
  (avgY tops).bind fun avgTopY =>
    (avgY bots).bind fun avgBotY =>
      (path tops bots).map fun p =>
        [Cmd.beginPath, Cmd.moveTo (some 0) (some (height : α)),
          Cmd.createLinearGradient (some 0) (some avgTopY) (some 0) (some avgBotY)] ++
        colorStops b ++ [Cmd.beginPath] ++ p ++ [Cmd.fillStyle, Cmd.fill]

/-- The method `draw()`: the sampling loop, then the calls on the context
(`none` when it throws). -/
def draw (e : noise.State α) (b : Band α) (width height : ℕ) (time : α) :
    Option (List (Cmd α)) :=
  render b height (samples e b width height time).1 (samples e b width height time).2

/-- The path as the specification words it, for `n` top and `n` bottom points:
`moveTo(top[0])`; for `i = 1 .. n-1` a curve with control point `top[i-1]` and
endpoint the midpoint of `top[i-1]` and `top[i]`; `lineTo(top[n-1])`;
`lineTo(bot[n-1])`; for `i = n-2` down to `0` a curve with control point
`bot[i+1]` and endpoint the midpoint of `bot[i+1]` and `bot[i]`; `closePath`. -/
def pathSpec (tops bots : List (Point α)) : List (Cmd α) :=
  let n := tops.length
  let top := fun i => tops.getD i ⟨none, none⟩
  let bot := fun i => bots.getD i ⟨none, none⟩
  [Cmd.moveTo (top 0).x (top 0).y] ++
  (List.range (n - 1)).map (fun k =>
    Cmd.quadraticCurveTo (top k).x (top k).y (mid (top k).x (top (k + 1)).x)
      (mid (top k).y (top (k + 1)).y)) ++
  [Cmd.lineTo (top (n - 1)).x (top (n - 1)).y, Cmd.lineTo (bot (n - 1)).x (bot (n - 1)).y] ++
  (List.range (n - 1)).map (fun k =>
    Cmd.quadraticCurveTo (bot (n - 2 - k + 1)).x (bot (n - 2 - k + 1)).y
      (mid (bot (n - 2 - k + 1)).x (bot (n - 2 - k)).x)
      (mid (bot (n - 2 - k + 1)).y (bot (n - 2 - k)).y)) ++
  [Cmd.closePath]

end Band

/-! ## The frame driver (`animate`, `init`, the `visibilitychange` handler) -/

/-- The driver variables and the frame scheduler's queue.
`pending` holds the handles of requested frame callbacks that have neither run
nor been cancelled; `nextHandle` is the handle the next request returns;
`drawn` records, oldest first, the value of `time` each drawn frame used. -/
structure Driver where
  time : ℕ
  animationId : Option ℕ
  pending : List ℕ
  nextHandle : ℕ
  drawn : List ℕ

namespace Driver

/-- The module's variables before `init()` runs: `let time = 0; let animationId;`. -/
def boot : Driver :=
  { time := 0, animationId := none, pending := [], nextHandle := 1, drawn := [] }

/-- The function `animate`: draw every band with the current `time`, then
`time++; animationId = requestAnimationFrame(animate)`. -/
def animate (d : Driver) : Driver :=
  { time := d.time + 1
    animationId := some d.nextHandle
    pending := d.pending ++ [d.nextHandle]
    nextHandle := d.nextHandle + 1
    drawn := d.drawn ++ [d.time] }

/-- The call `cancelAnimationFrame(animationId)`. -/
def cancel (d : Driver) : Driver :=
  match d.animationId with
  | some h => { d with pending := d.pending.erase h }
  | none => d

/-- The `visibilitychange` handler: `if (document.hidden) cancel else animate()`. -/
def visibilitychange (hidden : Bool) (d : Driver) : Driver :=
  if hidden then cancel d else animate d

/-- The scheduler runs the pending callback with handle `h` (a frame tick);
a handle that is not pending runs nothing. -/
def frame (h : ℕ) (d : Driver) : Driver :=
  if h ∈ d.pending then animate { d with pending := d.pending.erase h } else d

/-- What can happen to the driver: the scheduler runs the callback with handle
`h`; the page becomes hidden (`visibilitychange` with `document.hidden`); the
page becomes visible again. -/
inductive Event where
  | tick (h : ℕ)
  | hidden
  | visible

/-- One event. -/
def step (d : Driver) : Event → Driver
  | Event.tick h => frame h d
  | Event.hidden => visibilitychange true d
  | Event.visible => visibilitychange false d

/-- A sequence of events, in order. -/
def run (d : Driver) (evs : List Event) : Driver :=
  evs.foldl step d

/-- The function `init`, as far as the driver goes: `animate()` on the boot state. -/
def init : Driver := animate boot

end Driver

/-! ## Array lemmas -/

theorem jsRead_jsWrite {β : Type} (xs : List (Option β)) (i k : ℕ) (v : Option β) :
    jsRead (jsWrite xs i v) k = if k = i then v else jsRead xs k := by
  unfold jsRead jsWrite
  by_cases h : i < xs.length
  · simp only [h, if_true, List.get?_eq_getElem?, List.getElem?_set]
    by_cases hk : k = i
    · subst hk; simp [h]
    · have : ¬ i = k := fun e => hk e.symm
      simp [hk, this]
  · simp only [h, if_false, List.get?_eq_getElem?]
    have hle : xs.length ≤ i := Nat.le_of_not_lt h
    by_cases hk : k = i
    · subst hk
      rw [List.getElem?_append_right (by simp; omega)]
      have h0 : k - (xs ++ List.replicate (k - xs.length) none).length = 0 := by
        simp; omega
      rw [h0]; simp
    · simp only [hk, if_false]
      by_cases hk2 : k < xs.length
      · rw [List.append_assoc, List.getElem?_append_left hk2]
      · have hk3 : xs.length ≤ k := Nat.le_of_not_lt hk2
        rw [List.getElem?_eq_none (l := xs) hk3]
        by_cases hk4 : k < i
        · rw [List.getElem?_append_left (by simp; omega),
            List.getElem?_append_right hk3, List.getElem?_replicate]
          simp
        · rw [List.getElem?_eq_none (by simp; omega)]

theorem length_jsWrite {β : Type} (xs : List (Option β)) (i : ℕ) (v : Option β) :
    (jsWrite xs i v).length = max xs.length (i + 1) := by
  unfold jsWrite
  by_cases h : i < xs.length
  · simp [h]; omega
  · simp [h]; omega

/-! ## The three loops of `init` -/

namespace noise

variable {α : Type} [LinearOrderedField α] [FloorRing α]

theorem jsRead_swap (p : List (Option ℕ)) (i j k : ℕ) :
    jsRead (swap p i j) k =
      if k = j then jsRead p i else if k = i then jsRead p j else jsRead p k := by
  simp only [swap, jsRead_jsWrite]

theorem length_swap (p : List (Option ℕ)) (i j : ℕ) :
    (swap p i j).length = max (max p.length (i + 1)) (j + 1) := by
  simp only [swap, length_jsWrite]

theorem jsRead_fillLoop_perm (rnd : ℕ → α) (n : ℕ) (s : State α) (k : ℕ) :
    jsRead (fillLoop rnd n s).perm k = if k < n then some k else jsRead s.perm k := by
  induction n with
  | zero => simp [fillLoop]
  | succ n ih =>
    simp only [fillLoop, jsRead_jsWrite, ih]
    by_cases h1 : k = n
    · subst h1; simp
    · by_cases h2 : k < n
      · have : k < n + 1 := by omega
        simp [h1, h2, this]
      · have : ¬ k < n + 1 := by omega
        simp [h1, h2, this]

theorem jsRead_fillLoop_grad (rnd : ℕ → α) (n : ℕ) (s : State α) (k : ℕ) :
    jsRead (fillLoop rnd n s).grad k =
      if k < n then some (rnd k * 2 - 1) else jsRead s.grad k := by
  induction n with
  | zero => simp [fillLoop]
  | succ n ih =>
    simp only [fillLoop, jsRead_jsWrite, ih]
    by_cases h1 : k = n
    · subst h1; simp
    · by_cases h2 : k < n
      · have : k < n + 1 := by omega
        simp [h1, h2, this]
      · have : ¬ k < n + 1 := by omega
        simp [h1, h2, this]

theorem length_fillLoop (rnd : ℕ → α) (n : ℕ) (s : State α) :
    (fillLoop rnd n s).perm.length = max s.perm.length n ∧
      (fillLoop rnd n s).grad.length = max s.grad.length n := by
  induction n with
  | zero => simp [fillLoop]
  | succ n ih =>
    simp only [fillLoop, length_jsWrite, ih.1, ih.2]
    omega

theorem shuffleIndex_le (r : α) (h1 : r < 1) (i : ℕ) :
    shuffleIndex r i ≤ i := by
  unfold shuffleIndex
  have hpos : (0 : α) < (i : α) + 1 := by positivity
  have hlt : r * ((i : α) + 1) < ((i + 1 : ℤ) : α) := by
    push_cast
    calc r * ((i : α) + 1) < 1 * ((i : α) + 1) := by
          exact mul_lt_mul_of_pos_right h1 hpos
      _ = (i : α) + 1 := one_mul _
  have hfl : ⌊r * ((i : α) + 1)⌋ < (i + 1 : ℤ) := Int.floor_lt.mpr hlt
  omega

theorem jsRead_shuffleLoop (rnd : ℕ → α) (hr : ∀ n, 0 ≤ rnd n ∧ rnd n < 1)
    (k : ℕ) (hk : k ≤ 255) (p : List (Option ℕ)) :
    ∃ σ : Equiv.Perm ℕ, (∀ m, 256 ≤ m → σ m = m) ∧
      ∀ m, jsRead (shuffleLoop rnd k p) m = jsRead p (σ m) := by
  induction k with
  | zero => exact ⟨Equiv.refl ℕ, fun _ _ => rfl, fun _ => rfl⟩
  | succ k ih =>
    obtain ⟨σ, hfix, hread⟩ := ih (by omega)
    have hj := shuffleIndex_le (rnd (256 + k)) (hr _).2 (255 - k)
    refine ⟨(Equiv.swap (255 - k) (shuffleIndex (rnd (256 + k)) (255 - k))).trans σ, ?_, ?_⟩
    · intro m hm
      have h1 : m ≠ 255 - k := by omega
      have h2 : m ≠ shuffleIndex (rnd (256 + k)) (255 - k) := by omega
      simp [Equiv.swap_apply_of_ne_of_ne h1 h2, hfix m hm]
    · intro m
      simp only [shuffleLoop, jsRead_swap, hread, Equiv.trans_apply]
      by_cases h2 : m = shuffleIndex (rnd (256 + k)) (255 - k)
      · rw [if_pos h2, h2, Equiv.swap_apply_right]
      · rw [if_neg h2]
        by_cases h1 : m = 255 - k
        · rw [if_pos h1, h1, Equiv.swap_apply_left]
        · rw [if_neg h1, Equiv.swap_apply_of_ne_of_ne h1 h2]

theorem length_shuffleLoop (rnd : ℕ → α) (hr : ∀ n, 0 ≤ rnd n ∧ rnd n < 1)
    (k : ℕ) (hk : k ≤ 255) (p : List (Option ℕ)) (hp : 256 ≤ p.length) :
    (shuffleLoop rnd k p).length = p.length := by
  induction k with
  | zero => rfl
  | succ k ih =>
    have hj := shuffleIndex_le (rnd (256 + k)) (hr _).2 (255 - k)
    simp only [shuffleLoop, length_swap, ih (by omega)]
    omega

theorem jsRead_dupLoop_perm (n : ℕ) (hn : n ≤ 256) (s : State α) (k : ℕ) :
    jsRead (dupLoop n s).perm k =
      if 256 ≤ k ∧ k < 256 + n then jsRead s.perm (k - 256) else jsRead s.perm k := by
  induction n generalizing k with
  | zero =>
    have : ¬ (256 ≤ k ∧ k < 256 + 0) := by omega
    simp [dupLoop, this]
  | succ n ih =>
    have ihn := ih (by omega)
    simp only [dupLoop, jsRead_jsWrite, ihn]
    have hn0 : ¬ (256 ≤ n ∧ n < 256 + n) := by omega
    rw [if_neg hn0]
    by_cases h1 : k = 256 + n
    · have h2 : 256 ≤ k ∧ k < 256 + (n + 1) := by omega
      have h3 : k - 256 = n := by omega
      rw [if_pos h1, if_pos h2, h3]
    · rw [if_neg h1]
      by_cases h3 : 256 ≤ k ∧ k < 256 + n
      · have h4 : 256 ≤ k ∧ k < 256 + (n + 1) := by omega
        rw [if_pos h3, if_pos h4]
      · have h4 : ¬ (256 ≤ k ∧ k < 256 + (n + 1)) := by omega
        rw [if_neg h3, if_neg h4]

theorem jsRead_dupLoop_grad (n : ℕ) (hn : n ≤ 256) (s : State α) (k : ℕ) :
    jsRead (dupLoop n s).grad k =
      if 256 ≤ k ∧ k < 256 + n then jsRead s.grad (k - 256) else jsRead s.grad k := by
  induction n generalizing k with
  | zero =>
    have : ¬ (256 ≤ k ∧ k < 256 + 0) := by omega
    simp [dupLoop, this]
  | succ n ih =>
    have ihn := ih (by omega)
    simp only [dupLoop, jsRead_jsWrite, ihn]
    have hn0 : ¬ (256 ≤ n ∧ n < 256 + n) := by omega
    rw [if_neg hn0]
    by_cases h1 : k = 256 + n
    · have h2 : 256 ≤ k ∧ k < 256 + (n + 1) := by omega
      have h3 : k - 256 = n := by omega
      rw [if_pos h1, if_pos h2, h3]
    · rw [if_neg h1]
      by_cases h3 : 256 ≤ k ∧ k < 256 + n
      · have h4 : 256 ≤ k ∧ k < 256 + (n + 1) := by omega
        rw [if_pos h3, if_pos h4]
      · have h4 : ¬ (256 ≤ k ∧ k < 256 + (n + 1)) := by omega
        rw [if_neg h3, if_neg h4]

theorem length_dupLoop (n : ℕ) (s : State α) (hp : 256 ≤ s.perm.length)
    (hg : 256 ≤ s.grad.length) :
    (dupLoop n s).perm.length = max s.perm.length (256 + n) ∧
      (dupLoop n s).grad.length = max s.grad.length (256 + n) := by
  induction n with
  | zero => simp [dupLoop]; omega
  | succ n ih =>
    simp only [dupLoop, length_jsWrite, ih.1, ih.2]
    omega

/-! ## What `init` leaves in the tables -/

theorem jsRead_init_perm (rnd : ℕ → α) (hr : ∀ n, 0 ≤ rnd n ∧ rnd n < 1) (s : State α) :
    ∃ σ : Equiv.Perm ℕ, (∀ m, 256 ≤ m → σ m = m) ∧
      ∀ k, k < 512 → jsRead (init rnd s).perm k = some (σ (k % 256)) := by
  obtain ⟨σ, hfix, hread⟩ := jsRead_shuffleLoop rnd hr 255 (le_refl _) (fillLoop rnd 256 s).perm
  have hlt : ∀ m, m < 256 → σ m < 256 := by
    intro m hm
    by_contra hge
    have h1 : σ (σ m) = σ m := hfix _ (by omega)
    have h2 : σ m = m := σ.injective h1
    omega
  refine ⟨σ, hfix, ?_⟩
  intro k hk
  simp only [init]
  rw [jsRead_dupLoop_perm 256 (le_refl _)]
  by_cases h : 256 ≤ k ∧ k < 256 + 256
  · rw [if_pos h]
    simp only [hread, jsRead_fillLoop_perm]
    have e : k % 256 = k - 256 := by omega
    rw [e, if_pos (hlt _ (by omega))]
  · rw [if_neg h]
    simp only [hread, jsRead_fillLoop_perm]
    have e : k % 256 = k := by omega
    rw [e, if_pos (hlt _ (by omega))]

theorem jsRead_init_grad (rnd : ℕ → α) (s : State α) (k : ℕ) (hk : k < 512) :
    jsRead (init rnd s).grad k = some (rnd (k % 256) * 2 - 1) := by
  simp only [init]
  rw [jsRead_dupLoop_grad 256 (le_refl _)]
  by_cases h : 256 ≤ k ∧ k < 256 + 256
  · rw [if_pos h]
    simp only [jsRead_fillLoop_grad]
    have e : k % 256 = k - 256 := by omega
    rw [e, if_pos (by omega)]
  · rw [if_neg h]
    simp only [jsRead_fillLoop_grad]
    have e : k % 256 = k := by omega
    rw [e, if_pos (by omega)]

theorem length_init (rnd : ℕ → α) (hr : ∀ n, 0 ≤ rnd n ∧ rnd n < 1) (s : State α) :
    (init rnd s).perm.length = max s.perm.length 512 ∧
      (init rnd s).grad.length = max s.grad.length 512 := by
  have hf := length_fillLoop rnd 256 s
  have hs := length_shuffleLoop rnd hr 255 (le_refl _) (fillLoop rnd 256 s).perm
    (by rw [hf.1]; omega)
  have hd := length_dupLoop 256
    ({ perm := shuffleLoop rnd 255 (fillLoop rnd 256 s).perm
       grad := (fillLoop rnd 256 s).grad } : State α)
    (by simp only [hs, hf.1]; omega) (by simp only [hf.2]; omega)
  simp only [init, hd.1, hd.2, hs, hf.1, hf.2]
  omega

theorem lookups_init (rnd : ℕ → α) (hr : ∀ n, 0 ≤ rnd n ∧ rnd n < 1) (s : State α) :
    Lookups (init rnd s) := by
  obtain ⟨σ, hfix, hread⟩ := jsRead_init_perm rnd hr s
  constructor
  · intro k hk
    refine ⟨σ (k % 256), hread k hk, ?_⟩
    by_contra hge
    have h1 : σ (σ (k % 256)) = σ (k % 256) := hfix _ (by omega)
    have h2 : σ (k % 256) = k % 256 := σ.injective h1
    omega
  · intro k hk
    exact ⟨_, jsRead_init_grad rnd s k hk⟩

theorem duplicated_init (rnd : ℕ → α) (hr : ∀ n, 0 ≤ rnd n ∧ rnd n < 1) (s : State α) :
    Duplicated (init rnd s) := by
  obtain ⟨σ, _, hread⟩ := jsRead_init_perm rnd hr s
  intro i hi
  constructor
  · have e : (i + 256) % 256 = i % 256 := by omega
    rw [hread _ (by omega), hread _ (by omega), e]
  · have e : (i + 256) % 256 = i % 256 := by omega
    rw [jsRead_init_grad rnd s _ (by omega), jsRead_init_grad rnd s _ (by omega), e]

theorem gradBounded_init (rnd : ℕ → α) (hr : ∀ n, 0 ≤ rnd n ∧ rnd n < 1) (s : State α)
    (k : ℕ) (hk : k < 512) (g : α) (hg : jsRead (init rnd s).grad k = some g) :
    -1 ≤ g ∧ g < 1 := by
  rw [jsRead_init_grad rnd s k hk] at hg
  have e : rnd (k % 256) * 2 - 1 = g := Option.some.inj hg
  have h := hr (k % 256)
  constructor <;> linarith [h.1, h.2]

/-! ## Evaluating `get` -/

theorem cell_lt (x : α) : cell x < 256 := by
  unfold cell
  have h1 : 0 ≤ ⌊x⌋ % 256 := Int.emod_nonneg _ (by norm_num)
  have h2 : ⌊x⌋ % 256 < 256 := Int.emod_lt_of_pos _ (by norm_num)
  omega

theorem permVal_lt (s : State α) (h : Lookups s) (k : ℕ) (hk : k < 512) :
    permVal s k < 256 := by
  obtain ⟨v, hv, hlt⟩ := h.1 k hk
  simp [permVal, hv, hlt]

theorem permAt_some (s : State α) (h : Lookups s) (k b : ℕ) (hk : k < 512) :
    permAt s (some k) b = some (permVal s k + b) := by
  obtain ⟨v, hv, _⟩ := h.1 k hk
  simp [permAt, permVal, hv]

theorem gradAt_some (s : State α) (h : Lookups s) (k : ℕ) (hk : k < 512) :
    gradAt s (some k) = some (gradVal s k) := by
  obtain ⟨g, hg⟩ := h.2 k hk
  simp [gradAt, gradVal, hg]

theorem lerpJS_some (a b t : α) : lerpJS (some a) (some b) t = some (lerp a b t) := rfl

theorem succJS_some (k : ℕ) : succJS (some k) = some (k + 1) := rfl

theorem get_eq_some (s : State α) (h : Lookups s) (x y z : α) :
    get s x y z = some (getVal s x y z) := by
  have hX := cell_lt x
  have hY := cell_lt y
  have hZ := cell_lt z
  have hA := permVal_lt s h (cell x) (by omega)
  have hB := permVal_lt s h (cell x + 1) (by omega)
  have hAA := permVal_lt s h (permVal s (cell x) + cell y) (by omega)
  have hAB := permVal_lt s h (permVal s (cell x) + cell y + 1) (by omega)
  have hBA := permVal_lt s h (permVal s (cell x + 1) + cell y) (by omega)
  have hBB := permVal_lt s h (permVal s (cell x + 1) + cell y + 1) (by omega)
  simp only [get, getVal]
  rw [permAt_some s h (cell x) _ (by omega), permAt_some s h (cell x + 1) _ (by omega)]
  simp only [succJS_some]
  rw [permAt_some s h _ (cell z) (by omega), permAt_some s h _ (cell z) (by omega),
    permAt_some s h _ (cell z) (by omega), permAt_some s h _ (cell z) (by omega)]
  simp only [succJS_some]
  rw [gradAt_some s h _ (by omega), gradAt_some s h _ (by omega),
    gradAt_some s h _ (by omega), gradAt_some s h _ (by omega),
    gradAt_some s h _ (by omega), gradAt_some s h _ (by omega),
    gradAt_some s h _ (by omega), gradAt_some s h _ (by omega)]
  simp only [lerpJS_some]

theorem fade_zero : fade (0 : α) = 0 := by simp [fade]

theorem lerp_zero (a b : α) : lerp a b 0 = a := by simp [lerp]

theorem cell_intCast (k : ℤ) : cell (k : α) = (k % 256).toNat := by
  simp [cell]

theorem getVal_lattice (s : State α) (i j k : ℤ) :
    getVal s (i : α) (j : α) (k : α) =
      gradVal s (permVal s (permVal s (cell (i : α)) + cell (j : α)) + cell (k : α)) := by
  simp only [getVal, Int.floor_intCast, sub_self, fade_zero, lerp_zero]

theorem rndExample_range (n : ℕ) : 0 ≤ rndExample n ∧ rndExample n < 1 := by
  unfold rndExample
  by_cases h : n < 256
  · simp only [h, if_true]
    have h1 : (n : ℚ) < 256 := by exact_mod_cast h
    have h0 : (0 : ℚ) ≤ n := Nat.cast_nonneg n
    constructor
    · positivity
    · rw [div_lt_one (by norm_num)]; exact h1
  · simp [h]

theorem shuffleIndex_rndExample (k i : ℕ) : shuffleIndex (rndExample (256 + k)) i = 0 := by
  have h : ¬ (256 + k < 256) := by omega
  simp [shuffleIndex, rndExample, h]

theorem shuffleLoop_rndExample (p : List (Option ℕ))
    (hp : ∀ m, m < 256 → jsRead p m = some m) (k : ℕ) (hk : k ≤ 255) :
    jsRead (shuffleLoop rndExample k p) 0 = some (if k = 0 then 0 else 256 - k) ∧
      ∀ m, 0 < m → m < 256 - k → jsRead (shuffleLoop rndExample k p) m = some m := by
  induction k with
  | zero => exact ⟨by simpa using hp 0 (by omega), fun m _ hm => hp m (by omega)⟩
  | succ k ih =>
    obtain ⟨_, ih2⟩ := ih (by omega)
    simp only [shuffleLoop, shuffleIndex_rndExample, jsRead_swap]
    constructor
    · have e : 256 - (k + 1) = 255 - k := by omega
      simp only [if_true, Nat.succ_ne_zero, if_false, e]
      exact ih2 (255 - k) (by omega) (by omega)
    · intro m hm0 hm
      have h1 : m ≠ 0 := by omega
      have h2 : m ≠ 255 - k := by omega
      rw [if_neg h1, if_neg h2]
      exact ih2 m hm0 (by omega)

theorem init_rndExample_perm :
    jsRead (init rndExample (initial ℚ)).perm 0 = some 1 ∧
      jsRead (init rndExample (initial ℚ)).perm 1 = some 2 := by
  have hp : ∀ m, m < 256 → jsRead (fillLoop rndExample 256 (initial ℚ)).perm m = some m := by
    intro m hm
    rw [jsRead_fillLoop_perm, if_pos hm]
  have h255 := shuffleLoop_rndExample _ hp 255 (le_refl _)
  have h254 := shuffleLoop_rndExample _ hp 254 (by omega)
  have n0 : ¬ (256 ≤ 0 ∧ 0 < 256 + 256) := by omega
  have n1 : ¬ (256 ≤ 1 ∧ 1 < 256 + 256) := by omega
  constructor
  · simp only [init]
    rw [jsRead_dupLoop_perm 256 (le_refl _), if_neg n0]
    simpa using h255.1
  · simp only [init]
    rw [jsRead_dupLoop_perm 256 (le_refl _), if_neg n1]
    have e : shuffleLoop rndExample 255 (fillLoop rndExample 256 (initial ℚ)).perm =
        swap (shuffleLoop rndExample 254 (fillLoop rndExample 256 (initial ℚ)).perm) 1
          (shuffleIndex (rndExample (256 + 254)) 1) := rfl
    rw [e, shuffleIndex_rndExample, jsRead_swap]
    simpa using h254.1

theorem get_lattice_x (s : State α) (hL : Lookups s) (k : ℤ) :
    get s (k : α) 0 0 = some (gradVal s (permVal s (permVal s (k % 256).toNat))) := by
  have e := getVal_lattice s k 0 0
  have c0 : cell (0 : α) = 0 := by simp [cell]
  simp only [Int.cast_zero, c0, add_zero, cell_intCast] at e
  rw [get_eq_some s hL, e]

theorem get_origin_of_reads (s : State ℚ) (hL : Lookups s) (a b : ℕ) (g g1 : ℚ)
    (h0 : jsRead s.perm 0 = some a) (h1 : jsRead s.perm a = some b)
    (hg : jsRead s.grad b = some g) (hg1 : jsRead s.grad a = some g1) :
    get s ((0 : ℤ) : ℚ) 0 0 = some g ∧
      (jsRead s.perm ((0 : ℤ) % 256).toNat).bind (jsRead s.grad) = some g1 := by
  have e : ((0 : ℤ) % 256).toNat = 0 := by decide
  constructor
  · rw [get_lattice_x s hL 0, e]
    simp only [permVal, gradVal, h0, h1, hg, Option.getD_some]
  · rw [e, h0, Option.some_bind, hg1]

theorem init_rndExample_get :
    get (init rndExample (initial ℚ)) ((0 : ℤ) : ℚ) 0 0 = some (-63 / 64) ∧
      (jsRead (init rndExample (initial ℚ)).perm ((0 : ℤ) % 256).toNat).bind
        (jsRead (init rndExample (initial ℚ)).grad) = some (-127 / 128) := by
  obtain ⟨h0, h1⟩ := init_rndExample_perm
  have hL := lookups_init rndExample rndExample_range (initial ℚ)
  have g1 := jsRead_init_grad rndExample (initial ℚ) 1 (by omega)
  have g2 := jsRead_init_grad rndExample (initial ℚ) 2 (by omega)
  have v1 : rndExample (1 % 256) * 2 - 1 = -127 / 128 := by norm_num [rndExample]
  have v2 : rndExample (2 % 256) * 2 - 1 = -63 / 64 := by norm_num [rndExample]
  rw [v1] at g1
  rw [v2] at g2
  exact get_origin_of_reads _ hL 1 2 _ _ h0 h1 g2 g1

/-! ## Bounds on `fade`, `lerp` and `get` -/

theorem fade_nonneg (t : α) (h0 : 0 ≤ t) : 0 ≤ fade t := by
  unfold fade
  have h1 : 0 < t * (t * 6 - 15) + 10 := by nlinarith [sq_nonneg (t * 4 - 5)]
  have h2 : 0 ≤ t * t * t := by positivity
  exact mul_nonneg h2 h1.le

theorem fade_le_one (t : α) (h0 : 0 ≤ t) (h1 : t ≤ 1) : fade t ≤ 1 := by
  have e : 1 - fade t = (1 - t) * (1 - t) * (1 - t) * (6 * t * t + 3 * t + 1) := by
    unfold fade; ring
  have h2 : 0 ≤ 1 - t := by linarith
  have h3 : 0 ≤ (1 - t) * (1 - t) * (1 - t) * (6 * t * t + 3 * t + 1) := by positivity
  linarith

theorem fade_fract_mem (x : α) : 0 ≤ fade (x - (⌊x⌋ : α)) ∧ fade (x - (⌊x⌋ : α)) ≤ 1 := by
  have h0 : 0 ≤ x - (⌊x⌋ : α) := by linarith [Int.floor_le x]
  have h1 : x - (⌊x⌋ : α) ≤ 1 := by linarith [Int.lt_floor_add_one x]
  exact ⟨fade_nonneg _ h0, fade_le_one _ h0 h1⟩

theorem lerp_mem (lo hi a b t : α) (ht0 : 0 ≤ t) (ht1 : t ≤ 1)
    (ha : lo ≤ a ∧ a ≤ hi) (hb : lo ≤ b ∧ b ≤ hi) :
    lo ≤ lerp a b t ∧ lerp a b t ≤ hi := by
  unfold lerp
  have h1 : 0 ≤ 1 - t := by linarith
  constructor
  · nlinarith [mul_nonneg h1 (sub_nonneg.mpr ha.1), mul_nonneg ht0 (sub_nonneg.mpr hb.1)]
  · nlinarith [mul_nonneg h1 (sub_nonneg.mpr ha.2), mul_nonneg ht0 (sub_nonneg.mpr hb.2)]

theorem getVal_mem (s : State α) (lo hi : α)
    (hg : ∀ k, k < 512 → lo ≤ gradVal s k ∧ gradVal s k ≤ hi) (hL : Lookups s) (x y z : α) :
    lo ≤ getVal s x y z ∧ getVal s x y z ≤ hi := by
  have hX := cell_lt x
  have hY := cell_lt y
  have hZ := cell_lt z
  have hA := permVal_lt s hL (cell x) (by omega)
  have hB := permVal_lt s hL (cell x + 1) (by omega)
  have hAA := permVal_lt s hL (permVal s (cell x) + cell y) (by omega)
  have hAB := permVal_lt s hL (permVal s (cell x) + cell y + 1) (by omega)
  have hBA := permVal_lt s hL (permVal s (cell x + 1) + cell y) (by omega)
  have hBB := permVal_lt s hL (permVal s (cell x + 1) + cell y + 1) (by omega)
  obtain ⟨u0, u1⟩ := fade_fract_mem x
  obtain ⟨v0, v1⟩ := fade_fract_mem y
  obtain ⟨w0, w1⟩ := fade_fract_mem z
  simp only [getVal]
  apply lerp_mem lo hi _ _ _ w0 w1
  · apply lerp_mem lo hi _ _ _ v0 v1
    · exact lerp_mem lo hi _ _ _ u0 u1 (hg _ (by omega)) (hg _ (by omega))
    · exact lerp_mem lo hi _ _ _ u0 u1 (hg _ (by omega)) (hg _ (by omega))
  · apply lerp_mem lo hi _ _ _ v0 v1
    · exact lerp_mem lo hi _ _ _ u0 u1 (hg _ (by omega)) (hg _ (by omega))
    · exact lerp_mem lo hi _ _ _ u0 u1 (hg _ (by omega)) (hg _ (by omega))

theorem gradVal_mem (s : State α) (hL : Lookups s)
    (hG : ∀ k, k < 512 → ∀ g, jsRead s.grad k = some g → -1 ≤ g ∧ g ≤ 1) (k : ℕ)
    (hk : k < 512) : -1 ≤ gradVal s k ∧ gradVal s k ≤ 1 := by
  obtain ⟨g, hg⟩ := hL.2 k hk
  have := hG k hk g hg
  simpa [gradVal, hg] using this

theorem getVal_unit (s : State α) (hL : Lookups s)
    (hG : ∀ k, k < 512 → ∀ g, jsRead s.grad k = some g → -1 ≤ g ∧ g ≤ 1) (x y z : α) :
    -1 ≤ getVal s x y z ∧ getVal s x y z ≤ 1 :=
  getVal_mem s (-1) 1 (fun k hk => gradVal_mem s hL hG k hk) hL x y z

theorem get_unit (s : State α) (hL : Lookups s) (hG : GradBounded s) (x y z : α) :
    ∃ v, get s x y z = some v ∧ -1 ≤ v ∧ v ≤ 1 :=
  ⟨getVal s x y z, get_eq_some s hL x y z,
    getVal_unit s hL (fun k _ g hg => hG k g hg) x y z⟩

theorem getVal_unit_init (rnd : ℕ → α) (hr : ∀ n, 0 ≤ rnd n ∧ rnd n < 1) (s : State α)
    (x y z : α) : -1 ≤ getVal (init rnd s) x y z ∧ getVal (init rnd s) x y z ≤ 1 :=
  getVal_unit _ (lookups_init rnd hr s)
    (fun k hk g hg => ⟨(gradBounded_init rnd hr s k hk g hg).1,
      (gradBounded_init rnd hr s k hk g hg).2.le⟩) x y z

theorem jsRead_none_of_length_le {β : Type} (xs : List (Option β)) (k : ℕ)
    (h : xs.length ≤ k) : jsRead xs k = none := by
  simp [jsRead, List.getElem?_eq_none h]

theorem gradBounded_of_init (rnd : ℕ → α) (hr : ∀ n, 0 ≤ rnd n ∧ rnd n < 1) (s : State α)
    (hs : s.grad.length ≤ 512) : GradBounded (init rnd s) := by
  intro k g hg
  by_cases hk : k < 512
  · have := gradBounded_init rnd hr s k hk g hg
    exact ⟨this.1, this.2.le⟩
  · have hl := (length_init rnd hr s).2
    rw [jsRead_none_of_length_le _ k (by rw [hl]; omega)] at hg
    exact absurd hg (by simp)

theorem tableInv_init (rnd : ℕ → α) (hr : ∀ n, 0 ≤ rnd n ∧ rnd n < 1) (s : State α)
    (hp : s.perm.length ≤ 512) (hg : s.grad.length ≤ 512) : TableInv (init rnd s) := by
  have hl := length_init rnd hr s
  exact ⟨by rw [hl.1]; omega, by rw [hl.2]; omega, lookups_init rnd hr s⟩

theorem map_range_perm (σ : Equiv.Perm ℕ) (hfix : ∀ m, 256 ≤ m → σ m = m) :
    ((List.range 256).map σ).Perm (List.range 256) := by
  have hlt : ∀ m, m < 256 → σ m < 256 := by
    intro m hm
    by_contra hge
    have h1 : σ (σ m) = σ m := hfix _ (by omega)
    have h2 : σ m = m := σ.injective h1
    omega
  rw [List.perm_ext_iff_of_nodup ((List.nodup_range 256).map σ.injective) (List.nodup_range 256)]
  intro a
  simp only [List.mem_map, List.mem_range]
  constructor
  · rintro ⟨b, hb, rfl⟩
    exact hlt b hb
  · intro ha
    refine ⟨σ.symm a, ?_, σ.apply_symm_apply a⟩
    by_contra hge
    have h1 : σ (σ.symm a) = σ.symm a := hfix _ (by omega)
    rw [σ.apply_symm_apply] at h1
    omega

theorem take_init_perm (rnd : ℕ → α) (hr : ∀ n, 0 ≤ rnd n ∧ rnd n < 1) (s : State α) :
    ((init rnd s).perm.take 256).Perm ((List.range 256).map some) := by
  obtain ⟨σ, hfix, hread⟩ := jsRead_init_perm rnd hr s
  have hlen : 512 ≤ (init rnd s).perm.length := by
    rw [(length_init rnd hr s).1]; omega
  have e : (init rnd s).perm.take 256 = ((List.range 256).map σ).map some := by
    apply List.ext_getElem?
    intro n
    by_cases hn : n < 256
    · have h1 := hread n (by omega)
      have h2 : n % 256 = n := by omega
      rw [h2] at h1
      simp only [jsRead, List.get?_eq_getElem?, Option.join_eq_some] at h1
      rw [List.getElem?_take_of_lt hn, h1]
      simp [List.getElem?_range hn]
    · rw [List.getElem?_eq_none (by simp; omega), List.getElem?_eq_none (by simp; omega)]
  rw [e]
  exact (map_range_perm σ hfix).map some

/-! ## `get` as an interpolation of the corner function -/

theorem permVal_wrap (s : State α) (hD : Duplicated s) (p : ℕ) (hp : p < 256) (I : ℤ) :
    permVal s (p + (I % 256).toNat + 1) = permVal s (p + ((I + 1) % 256).toNat) := by
  by_cases hm : (I % 256).toNat = 255
  · have h2 : ((I + 1) % 256).toNat = 0 := by omega
    have h3 : p + (I % 256).toNat + 1 = p + 256 := by omega
    rw [h2, h3, add_zero]
    simp only [permVal, (hD p hp).1]
  · have h2 : ((I + 1) % 256).toNat = (I % 256).toNat + 1 := by omega
    rw [h2, Nat.add_assoc]

theorem gradVal_wrap (s : State α) (hD : Duplicated s) (p : ℕ) (hp : p < 256) (I : ℤ) :
    gradVal s (p + (I % 256).toNat + 1) = gradVal s (p + ((I + 1) % 256).toNat) := by
  by_cases hm : (I % 256).toNat = 255
  · have h2 : ((I + 1) % 256).toNat = 0 := by omega
    have h3 : p + (I % 256).toNat + 1 = p + 256 := by omega
    rw [h2, h3, add_zero]
    simp only [gradVal, (hD p hp).2]
  · have h2 : ((I + 1) % 256).toNat = (I % 256).toNat + 1 := by omega
    rw [h2, Nat.add_assoc]

theorem emod_toNat_lt (I : ℤ) : (I % 256).toNat < 256 := by
  omega

theorem getVal_eq_trilerp (s : State α) (hL : Lookups s) (hD : Duplicated s) (x y z : α) :
    getVal s x y z = trilerp (corner s) x y z := by
  have hX := emod_toNat_lt ⌊x⌋
  have hX1 := emod_toNat_lt (⌊x⌋ + 1)
  have hY := emod_toNat_lt ⌊y⌋
  have hY1 := emod_toNat_lt (⌊y⌋ + 1)
  have e1 : permVal s ((⌊x⌋ % 256).toNat + 1) = permVal s ((⌊x⌋ + 1) % 256).toNat := by
    have := permVal_wrap s hD 0 (by omega) ⌊x⌋
    simpa using this
  have pA := permVal_lt s hL (⌊x⌋ % 256).toNat (by omega)
  have pB := permVal_lt s hL ((⌊x⌋ + 1) % 256).toNat (by omega)
  have e2 := permVal_wrap s hD _ pA ⌊y⌋
  have e3 := permVal_wrap s hD _ pB ⌊y⌋
  have q1 := permVal_lt s hL (permVal s (⌊x⌋ % 256).toNat + (⌊y⌋ % 256).toNat) (by omega)
  have q2 := permVal_lt s hL (permVal s ((⌊x⌋ + 1) % 256).toNat + (⌊y⌋ % 256).toNat)
    (by omega)
  have q3 := permVal_lt s hL (permVal s (⌊x⌋ % 256).toNat + ((⌊y⌋ + 1) % 256).toNat)
    (by omega)
  have q4 := permVal_lt s hL
    (permVal s ((⌊x⌋ + 1) % 256).toNat + ((⌊y⌋ + 1) % 256).toNat) (by omega)
  have e4 := gradVal_wrap s hD _ q1 ⌊z⌋
  have e5 := gradVal_wrap s hD _ q2 ⌊z⌋
  have e6 := gradVal_wrap s hD _ q3 ⌊z⌋
  have e7 := gradVal_wrap s hD _ q4 ⌊z⌋
  simp only [getVal, trilerp, corner, cell, e1, e2, e3, e4, e5, e6, e7]

/-! ## Continuity of the interpolation over `ℝ` -/

theorem fade_one : fade (1 : α) = 1 := by norm_num [fade]

theorem lerp_one (a b : α) : lerp a b 1 = b := by simp [lerp]

theorem continuous_fade : Continuous (fade : ℝ → ℝ) := by
  unfold fade
  fun_prop

theorem continuous_lerp_of {X : Type} [TopologicalSpace X] {a b t : X → ℝ}
    (ha : Continuous a) (hb : Continuous b) (ht : Continuous t) :
    Continuous fun q => lerp (a q) (b q) (t q) := by
  unfold lerp
  fun_prop

theorem continuous_lattice_lerp {P : Type} [TopologicalSpace P] (h : ℤ → P → ℝ)
    (hh : ∀ n, Continuous (h n)) :
    Continuous (fun q : P × ℝ =>
      lerp (h ⌊q.2⌋ q.1) (h (⌊q.2⌋ + 1) q.1) (fade (q.2 - (⌊q.2⌋ : ℝ)))) := by
  rw [continuous_iff_continuousAt]
  intro q0
  obtain ⟨n, hn⟩ : ∃ n : ℤ, n = ⌊q0.2⌋ := ⟨_, rfl⟩
  have hA : Continuous (fun q : P × ℝ =>
      lerp (h (n - 1) q.1) (h n q.1) (fade (q.2 - (((n - 1 : ℤ)) : ℝ)))) :=
    continuous_lerp_of ((hh _).comp continuous_fst) ((hh _).comp continuous_fst)
      (continuous_fade.comp (continuous_snd.sub continuous_const))
  have hB : Continuous (fun q : P × ℝ =>
      lerp (h n q.1) (h (n + 1) q.1) (fade (q.2 - ((n : ℤ) : ℝ)))) :=
    continuous_lerp_of ((hh _).comp continuous_fst) ((hh _).comp continuous_fst)
      (continuous_fade.comp (continuous_snd.sub continuous_const))
  have hP : Continuous (fun q : P × ℝ => if q.2 ≤ (n : ℝ) then
      lerp (h (n - 1) q.1) (h n q.1) (fade (q.2 - (((n - 1 : ℤ)) : ℝ)))
      else lerp (h n q.1) (h (n + 1) q.1) (fade (q.2 - ((n : ℤ) : ℝ)))) := by
    apply Continuous.if_le hA hB continuous_snd continuous_const
    intro q hq
    have e1 : q.2 - (((n - 1 : ℤ)) : ℝ) = 1 := by rw [hq]; push_cast; ring
    have e2 : q.2 - ((n : ℤ) : ℝ) = 0 := by rw [hq]; ring
    rw [e1, e2, fade_one, fade_zero, lerp_one, lerp_zero]
  have hU : {q : P × ℝ | (n : ℝ) - 1 < q.2 ∧ q.2 < (n : ℝ) + 1} ∈ nhds q0 := by
    apply IsOpen.mem_nhds
    · exact (isOpen_lt continuous_const continuous_snd).inter
        (isOpen_lt continuous_snd continuous_const)
    · constructor
      · rw [hn]; linarith [Int.floor_le q0.2]
      · rw [hn]; exact Int.lt_floor_add_one _
  refine hP.continuousAt.congr ?_
  filter_upwards [hU] with q hq
  by_cases hle : q.2 ≤ (n : ℝ)
  · rw [if_pos hle]
    rcases eq_or_lt_of_le hle with heq | hlt
    · have hf : ⌊q.2⌋ = n := by rw [heq]; exact Int.floor_intCast n
      have e1 : q.2 - (((n - 1 : ℤ)) : ℝ) = 1 := by rw [heq]; push_cast; ring
      have e2 : q.2 - ((n : ℤ) : ℝ) = 0 := by rw [heq]; ring
      rw [hf, e1, e2, fade_one, fade_zero, lerp_one, lerp_zero]
    · have hf : ⌊q.2⌋ = n - 1 := by
        rw [Int.floor_eq_iff]
        push_cast
        constructor <;> linarith [hq.1]
      rw [hf, sub_add_cancel]
  · rw [if_neg hle]
    have hf : ⌊q.2⌋ = n := by
      rw [Int.floor_eq_iff]
      constructor
      · linarith
      · exact hq.2
    rw [hf]

theorem continuous_trilerp (c : ℤ → ℤ → ℤ → ℝ) :
    Continuous (fun p : ℝ × ℝ × ℝ => trilerp c p.1 p.2.1 p.2.2) := by
  have h1 : ∀ J K : ℤ, Continuous (fun x : ℝ =>
      lerp (c ⌊x⌋ J K) (c (⌊x⌋ + 1) J K) (fade (x - (⌊x⌋ : ℝ)))) := by
    intro J K
    have := continuous_lattice_lerp (P := PUnit) (fun n _ => c n J K)
      (fun n => continuous_const)
    have hm : Continuous (fun x : ℝ => ((PUnit.unit, x) : PUnit × ℝ)) :=
      continuous_const.prod_mk continuous_id
    exact this.comp hm
  have h2 : ∀ K : ℤ, Continuous (fun q : ℝ × ℝ =>
      lerp (lerp (c ⌊q.1⌋ ⌊q.2⌋ K) (c (⌊q.1⌋ + 1) ⌊q.2⌋ K) (fade (q.1 - (⌊q.1⌋ : ℝ))))
        (lerp (c ⌊q.1⌋ (⌊q.2⌋ + 1) K) (c (⌊q.1⌋ + 1) (⌊q.2⌋ + 1) K)
          (fade (q.1 - (⌊q.1⌋ : ℝ))))
        (fade (q.2 - (⌊q.2⌋ : ℝ)))) := by
    intro K
    exact continuous_lattice_lerp (P := ℝ)
      (fun J x => lerp (c ⌊x⌋ J K) (c (⌊x⌋ + 1) J K) (fade (x - (⌊x⌋ : ℝ))))
      (fun J => h1 J K)
  have h3 := continuous_lattice_lerp (P := ℝ × ℝ)
    (fun K q =>
      lerp (lerp (c ⌊q.1⌋ ⌊q.2⌋ K) (c (⌊q.1⌋ + 1) ⌊q.2⌋ K) (fade (q.1 - (⌊q.1⌋ : ℝ))))
        (lerp (c ⌊q.1⌋ (⌊q.2⌋ + 1) K) (c (⌊q.1⌋ + 1) (⌊q.2⌋ + 1) K)
          (fade (q.1 - (⌊q.1⌋ : ℝ))))
        (fade (q.2 - (⌊q.2⌋ : ℝ))))
    h2
  have hmap : Continuous (fun p : ℝ × ℝ × ℝ => ((p.1, p.2.1), p.2.2)) :=
    (continuous_fst.prod_mk (continuous_fst.comp continuous_snd)).prod_mk
      (continuous_snd.comp continuous_snd)
  exact h3.comp hmap

theorem continuous_getVal (s : State ℝ) (hL : Lookups s) (hD : Duplicated s) :
    Continuous (fun p : ℝ × ℝ × ℝ => getVal s p.1 p.2.1 p.2.2) := by
  have e : (fun p : ℝ × ℝ × ℝ => getVal s p.1 p.2.1 p.2.2) =
      fun p : ℝ × ℝ × ℝ => trilerp (corner s) p.1 p.2.1 p.2.2 :=
    funext fun p => getVal_eq_trilerp s hL hD p.1 p.2.1 p.2.2
  rw [e]
  exact continuous_trilerp (corner s)

end noise

/-! ## The sampling loop of `Band.draw` -/

namespace Band

variable {α : Type} [LinearOrderedField α] [FloorRing α]

theorem steps_nonneg (width : ℕ) : 0 ≤ steps α width := by
  unfold steps
  apply Int.ceil_nonneg
  positivity

theorem steps_pos (width : ℕ) (hw : 0 < width) : 0 < steps α width := by
  unfold steps
  rw [Int.ceil_pos]
  have : (0 : α) < width := by exact_mod_cast hw
  positivity

theorem steps_zero : steps α 0 = 0 := by
  simp [steps]

theorem length_samples (e : noise.State α) (b : Band α) (width height : ℕ) (time : α) :
    ((samples e b width height time).1.length : ℤ) = steps α width + 1 ∧
      ((samples e b width height time).2.length : ℤ) = steps α width + 1 := by
  have h := steps_nonneg (α := α) width
  simp only [samples, List.length_map, List.length_range]
  omega

theorem xNorm_eq (width i : ℕ) (hw : 0 < width) :
    (xNorm width i : Option α) = some ((i : α) / ((steps α width).toNat : α)) := by
  have h := steps_pos (α := α) width hw
  have hc : (((steps α width).toNat : ℤ) : α) = ((steps α width : ℤ) : α) := by
    rw [Int.toNat_of_nonneg h.le]
  have hne : ((steps α width : ℤ) : α) ≠ 0 := by
    have : (0 : α) < ((steps α width : ℤ) : α) := by exact_mod_cast h
    exact ne_of_gt this
  rw [Int.cast_natCast] at hc
  simp only [xNorm, jsDiv, if_neg hne, hc]

theorem x_eq (width i : ℕ) (hw : 0 < width) :
    (x width i : Option α) =
      some ((i : α) / ((steps α width).toNat : α) * (width : α)) := by
  simp only [x, xNorm_eq width i hw, Option.map_some']

theorem yCenter_some (e : noise.State α) (hL : noise.Lookups e) (b : Band α)
    (width height : ℕ) (time : α) (i : ℕ) (q : α) (hq : (xNorm width i : Option α) = some q) :
    ∃ c, yCenter e b width height time i = some c := by
  simp only [yCenter, n1, n2, n3, hq, Option.some_bind, noise.get_eq_some e hL, jsOp,
    Option.map_some']
  exact ⟨_, rfl⟩

theorem localThick_eq (e : noise.State α) (hL : noise.Lookups e) (b : Band α)
    (width height : ℕ) (time : α) (i : ℕ) (q : α) (hq : (xNorm width i : Option α) = some q) :
    localThick e b width height time i =
      some (bandH b height *
        (0.8 + noise.getVal e (q * 3 + b.noiseOffset + 200) (t b time * 0.5) 2.0 * 0.4)) := by
  simp only [localThick, thickNoise, hq, Option.some_bind, noise.get_eq_some e hL,
    Option.map_some']

theorem point_some (e : noise.State α) (hL : noise.Lookups e) (b : Band α)
    (width height : ℕ) (time : α) (i : ℕ) (q : α) (hq : (xNorm width i : Option α) = some q) :
    ∃ c, (topPoint e b width height time i).y =
        some (c - bandH b height *
          (0.8 + noise.getVal e (q * 3 + b.noiseOffset + 200) (t b time * 0.5) 2.0 * 0.4) / 2) ∧
      (botPoint e b width height time i).y =
        some (c + bandH b height *
          (0.8 + noise.getVal e (q * 3 + b.noiseOffset + 200) (t b time * 0.5) 2.0 * 0.4) / 2) := by
  obtain ⟨c, hc⟩ := yCenter_some e hL b width height time i q hq
  refine ⟨c, ?_, ?_⟩
  · simp only [topPoint, hc, localThick_eq e hL b width height time i q hq, jsOp,
      Option.some_bind, Option.map_some']
  · simp only [botPoint, hc, localThick_eq e hL b width height time i q hq, jsOp,
      Option.some_bind, Option.map_some']

end Band

/-! ## The frame driver -/

namespace Driver

theorem step_time (d : Driver) (ev : Event) :
    ((step d ev).time = d.time ∧ (step d ev).drawn = d.drawn) ∨
      ((step d ev).time = d.time + 1 ∧ (step d ev).drawn = d.drawn ++ [d.time]) := by
  cases ev with
  | tick h =>
    by_cases hp : h ∈ d.pending
    · right; simp [step, frame, hp, animate]
    · left; simp [step, frame, hp]
  | hidden =>
    left
    cases ha : d.animationId <;> simp [step, visibilitychange, cancel, ha]
  | visible =>
    right; simp [step, visibilitychange, animate]

theorem run_time (evs : List Event) (d : Driver) :
    ∃ k, (run d evs).time = d.time + k ∧
      (run d evs).drawn = d.drawn ++ List.range' d.time k := by
  induction evs generalizing d with
  | nil => exact ⟨0, rfl, by simp [run]⟩
  | cons ev evs ih =>
    obtain ⟨k, hk1, hk2⟩ := ih (step d ev)
    have hrun : run d (ev :: evs) = run (step d ev) evs := rfl
    rcases step_time d ev with ⟨h1, h2⟩ | ⟨h1, h2⟩
    · exact ⟨k, by rw [hrun, hk1, h1], by rw [hrun, hk2, h1, h2]⟩
    · refine ⟨k + 1, by rw [hrun, hk1, h1]; omega, ?_⟩
      rw [hrun, hk2, h1, h2, List.append_assoc, List.range'_succ]
      rfl

end Driver

/-! ## Claims -/

open noise

variable {α : Type} [LinearOrderedField α] [FloorRing α]

/-- C1, as the claim states it, fails: after `init` with the example stream
(gradient draws `i/256`, shuffle draws `0`) `perm[0] = 1` and `perm[1] = 2`, so
`get(0, 0, 0)` is `grad[perm[perm[0]]] = grad[2] = -63/64`, while the claimed
value `grad[perm[0 mod 256]]` is `grad[1] = -127/128`. -/
theorem C1_counterexample :
    get (init rndExample (initial ℚ)) ((0 : ℤ) : ℚ) 0 0 = some (-63 / 64) ∧
      (jsRead (init rndExample (initial ℚ)).perm ((0 : ℤ) % 256).toNat).bind
        (jsRead (init rndExample (initial ℚ)).grad) = some (-127 / 128) ∧
      get (init rndExample (initial ℚ)) ((0 : ℤ) : ℚ) 0 0 ≠
        (jsRead (init rndExample (initial ℚ)).perm ((0 : ℤ) % 256).toNat).bind
          (jsRead (init rndExample (initial ℚ)).grad) := by
  obtain ⟨h1, h2⟩ := init_rndExample_get
  refine ⟨h1, h2, ?_⟩
  rw [h1, h2]
  norm_num

/-- C1 (amended): for every engine state produced by `init` (draws in `[0,1)`,
any prior tables) and every integer `k`, `get(k, 0, 0)` is the single table
entry `grad[perm[perm[k mod 256]]]`: the permutation table is applied twice
(`A = perm[X] + Y`, `AA = perm[A] + Z` with `Y = Z = 0`), and all three
entries exist. -/
theorem C1_get_at_lattice_point (rnd : ℕ → α) (hr : ∀ n, 0 ≤ rnd n ∧ rnd n < 1)
    (s : State α) (k : ℤ) :
    ∃ a b g, jsRead (init rnd s).perm (k % 256).toNat = some a ∧
      jsRead (init rnd s).perm a = some b ∧
      jsRead (init rnd s).grad b = some g ∧
      get (init rnd s) (k : α) 0 0 = some g := by
  have hL := lookups_init rnd hr s
  have hk : (k % 256).toNat < 256 := by
    have h1 : 0 ≤ k % 256 := Int.emod_nonneg _ (by norm_num)
    have h2 : k % 256 < 256 := Int.emod_lt_of_pos _ (by norm_num)
    omega
  obtain ⟨a, ha, ha256⟩ := hL.1 (k % 256).toNat (by omega)
  obtain ⟨b, hb, hb256⟩ := hL.1 a (by omega)
  obtain ⟨g, hg⟩ := hL.2 b (by omega)
  refine ⟨a, b, g, ha, hb, hg, ?_⟩
  rw [get_lattice_x _ hL k]
  simp only [permVal, gradVal, ha, hb, hg, Option.getD_some]

/-- Witness for C1 (amended): the example stream, empty prior tables, `k = 300`. -/
theorem C1_get_at_lattice_point_witness :
    (∀ n, 0 ≤ rndExample n ∧ rndExample n < 1) ∧
      ∃ a b g, jsRead (init rndExample (initial ℚ)).perm ((300 : ℤ) % 256).toNat = some a ∧
        jsRead (init rndExample (initial ℚ)).perm a = some b ∧
        jsRead (init rndExample (initial ℚ)).grad b = some g ∧
        get (init rndExample (initial ℚ)) ((300 : ℤ) : ℚ) 0 0 = some g :=
  ⟨rndExample_range, C1_get_at_lattice_point rndExample rndExample_range (initial ℚ) 300⟩

/-- C2: for every engine state satisfying the table invariant (512 entries,
all present, `perm` entries in `[0,255]`) whose gradients lie in `[-1,1]`, and
for all `x y z`, `get(x, y, z)` is a number in `[-1.2, 1.2]`. -/
theorem C2_get_bounded (s : State α) (hT : TableInv s) (hG : GradBounded s) (x y z : α) :
    ∃ v, get s x y z = some v ∧ -1.2 ≤ v ∧ v ≤ 1.2 := by
  obtain ⟨v, hv, h1, h2⟩ := get_unit s hT.2.2 hG x y z
  refine ⟨v, hv, ?_, ?_⟩
  · have : (-1.2 : α) ≤ -1 := by norm_num
    linarith
  · have : (1 : α) ≤ 1.2 := by norm_num
    linarith

/-- Witness for C2: the tables `init` builds from the example stream, sampled
at `(1/2, 1/3, 7)`. -/
theorem C2_get_bounded_witness :
    TableInv (init rndExample (initial ℚ)) ∧ GradBounded (init rndExample (initial ℚ)) ∧
      ∃ v, get (init rndExample (initial ℚ)) (1 / 2) (1 / 3) 7 = some v ∧
        -1.2 ≤ v ∧ v ≤ 1.2 :=
  ⟨tableInv_init rndExample rndExample_range (initial ℚ) (by simp [initial])
      (by simp [initial]),
    gradBounded_of_init rndExample rndExample_range (initial ℚ) (by simp [initial]),
    C2_get_bounded _
      (tableInv_init rndExample rndExample_range (initial ℚ) (by simp [initial])
        (by simp [initial]))
      (gradBounded_of_init rndExample rndExample_range (initial ℚ) (by simp [initial]))
      (1 / 2) (1 / 3) 7⟩

/-- C3: for a band with positive thickness fraction (the claim's `(0,1]`), any
time value, any engine state produced by `init` (draws in `[0,1)`, any prior
tables) and positive working width and height, every (top, bottom) pair the
sampling loop of `draw` pushes has real `y` coordinates with
`bottom.y - top.y > 0`. -/
theorem C3_bottom_below_top (rnd : ℕ → α) (hr : ∀ n, 0 ≤ rnd n ∧ rnd n < 1)
    (s : State α) (b : Band α) (hb : 0 < b.bandWidth) (hb1 : b.bandWidth ≤ 1)
    (width height : ℕ) (hw : 0 < width) (hh : 0 < height) (time : α) :
    ∀ p ∈ List.zip (Band.samples (init rnd s) b width height time).1
        (Band.samples (init rnd s) b width height time).2,
      ∃ yt yb, p.1.y = some yt ∧ p.2.y = some yb ∧ 0 < yb - yt := by
  intro p hp
  simp only [Band.samples, List.zip_map', List.mem_map] at hp
  obtain ⟨i, _, rfl⟩ := hp
  have hL := lookups_init rnd hr s
  obtain ⟨c, h1, h2⟩ := Band.point_some (init rnd s) hL b width height time i _
    (Band.xNorm_eq width i hw)
  refine ⟨_, _, h1, h2, ?_⟩
  have hg := (getVal_unit_init rnd hr s
    ((i : α) / ((Band.steps α width).toNat : α) * 3 + b.noiseOffset + 200)
    (Band.t b time * 0.5) 2.0).1
  have hH : 0 < Band.bandH b height := by
    have : (0 : α) < height := by exact_mod_cast hh
    exact mul_pos hb this
  have hf : (0 : α) < 0.8 + getVal (init rnd s)
      ((i : α) / ((Band.steps α width).toNat : α) * 3 + b.noiseOffset + 200)
      (Band.t b time * 0.5) 2.0 * 0.4 := by
    have e1 : (0.8 : α) = 4 / 5 := by norm_num
    have e2 : (0.4 : α) = 2 / 5 := by norm_num
    rw [e1, e2]
    linarith
  have hpos := mul_pos hH hf
  linarith

/-- Witness for C3: the first configured band on the tables built from the
example stream, working raster 200 by 100, time 7. -/
theorem C3_bottom_below_top_witness :
    (∀ n, 0 ≤ rndExample n ∧ rndExample n < 1) ∧ 0 < (firstBand 0).bandWidth ∧
      (firstBand 0).bandWidth ≤ 1 ∧ 0 < 200 ∧ 0 < 100 ∧
      ∀ p ∈ List.zip
          (Band.samples (init rndExample (initial ℚ)) (firstBand 0) 200 100 7).1
          (Band.samples (init rndExample (initial ℚ)) (firstBand 0) 200 100 7).2,
        ∃ yt yb, p.1.y = some yt ∧ p.2.y = some yb ∧ 0 < yb - yt :=
  ⟨rndExample_range, by norm_num [firstBand], by norm_num [firstBand], by norm_num,
    by norm_num,
    C3_bottom_below_top rndExample rndExample_range (initial ℚ) (firstBand 0)
      (by norm_num [firstBand]) (by norm_num [firstBand]) 200 100 (by norm_num)
      (by norm_num) 7⟩

/-- C4: for every working width `w` the sampling loop of `draw` leaves exactly
`ceil(w/3) + 1` points in `topPoints` and as many in `botPoints`; for
`w = 200` that is `N = 67` and 68 points. -/
theorem C4_sample_count (e : State α) (b : Band α) (width height : ℕ) (time : α) :
    ((Band.samples e b width height time).1.length : ℤ) = ⌈(width : α) / 3⌉ + 1 ∧
      ((Band.samples e b width height time).2.length : ℤ) = ⌈(width : α) / 3⌉ + 1 ∧
      Band.steps α 200 = 67 ∧
      (Band.samples e b 200 height time).1.length = 68 ∧
      (Band.samples e b 200 height time).2.length = 68 := by
  have h200 : Band.steps α 200 = 67 := by
    unfold Band.steps
    rw [Int.ceil_eq_iff]
    constructor <;> norm_num
  have hl := Band.length_samples e b width height time
  have hl2 := Band.length_samples e b 200 height time
  rw [h200] at hl2
  refine ⟨hl.1, hl.2, h200, ?_, ?_⟩
  · have := hl2.1; omega
  · have := hl2.2; omega

/-- C5: for every positive working width `w`, with `N = ceil(w/3)`, the `x`
coordinates pushed by the sampling loop of `draw` (on `topPoints` and on
`botPoints` alike) are the numbers `x_i = (i/N) * w` for `i = 0 .. N`: the first
is `0`, the last is `w`, they are strictly increasing, and consecutive ones are
`w/N` apart. -/
theorem C5_x_coordinates (e : State α) (b : Band α) (width height : ℕ) (hw : 0 < width)
    (time : α) :
    ∃ (N : ℕ) (xs : List α), (N : ℤ) = ⌈(width : α) / 3⌉ ∧
      xs = (List.range (N + 1)).map (fun i : ℕ => (i : α) / (N : α) * (width : α)) ∧
      (Band.samples e b width height time).1.map Point.x = xs.map some ∧
      (Band.samples e b width height time).2.map Point.x = xs.map some ∧
      xs.head? = some 0 ∧ xs.getLast? = some (width : α) ∧
      xs.Pairwise (fun p q => p < q) ∧
      ∀ i : ℕ, i < N →
        ((i + 1 : ℕ) : α) / (N : α) * (width : α) - (i : α) / (N : α) * (width : α) =
          (width : α) / (N : α) := by
  have hs := Band.steps_pos (α := α) width hw
  have hN : ((Band.steps α width).toNat : ℤ) = Band.steps α width := Int.toNat_of_nonneg hs.le
  have hNpos : 0 < (Band.steps α width).toNat := by omega
  have hNα : (0 : α) < ((Band.steps α width).toNat : α) := by exact_mod_cast hNpos
  have hwα : (0 : α) < (width : α) := by exact_mod_cast hw
  have hcount : (Band.steps α width + 1).toNat = (Band.steps α width).toNat + 1 := by omega
  refine ⟨(Band.steps α width).toNat, _, hN, rfl, ?_, ?_, ?_, ?_, ?_, ?_⟩
  · simp only [Band.samples, hcount, List.map_map]
    apply List.map_congr_left
    intro i _
    simp only [Function.comp, Band.topPoint, Band.x_eq width i hw]
  · simp only [Band.samples, hcount, List.map_map]
    apply List.map_congr_left
    intro i _
    simp only [Function.comp, Band.botPoint, Band.x_eq width i hw]
  · simp [List.range_succ_eq_map]
  · simp only [List.range_succ, List.map_append, List.map_cons, List.map_nil]
    rw [List.getLast?_concat, div_self (ne_of_gt hNα), one_mul]
  · apply List.Pairwise.map _ _ (List.pairwise_lt_range _)
    intro i j hij
    have hij2 : (i : α) < (j : α) := by exact_mod_cast hij
    have h1 : (i : α) / ((Band.steps α width).toNat : α) <
        (j : α) / ((Band.steps α width).toNat : α) := div_lt_div_of_pos_right hij2 hNα
    exact mul_lt_mul_of_pos_right h1 hwα
  · intro i _
    push_cast
    field_simp
    ring

/-- Witness for C5: working width 200 (so `N = 67`), over `ℚ`. -/
theorem C5_x_coordinates_witness :
    0 < 200 ∧
    ∃ (N : ℕ) (xs : List ℚ), (N : ℤ) = ⌈((200 : ℕ) : ℚ) / 3⌉ ∧
      xs = (List.range (N + 1)).map (fun i : ℕ => (i : ℚ) / (N : ℚ) * ((200 : ℕ) : ℚ)) ∧
      (Band.samples (init rndExample (initial ℚ)) (firstBand 0) 200 100 7).1.map Point.x =
        xs.map some ∧
      (Band.samples (init rndExample (initial ℚ)) (firstBand 0) 200 100 7).2.map Point.x =
        xs.map some ∧
      xs.head? = some 0 ∧ xs.getLast? = some ((200 : ℕ) : ℚ) ∧
      xs.Pairwise (fun p q => p < q) ∧
      ∀ i : ℕ, i < N →
        ((i + 1 : ℕ) : ℚ) / (N : ℚ) * ((200 : ℕ) : ℚ) - (i : ℚ) / (N : ℚ) * ((200 : ℕ) : ℚ) =
          ((200 : ℕ) : ℚ) / (N : ℚ) :=
  ⟨by norm_num,
    C5_x_coordinates (init rndExample (initial ℚ)) (firstBand 0) 200 100 (by norm_num) 7⟩

/-- C6, as the claim states it, fails: a window of inner width 0 gives the
working width `resize 0 = 0`, for which `steps = 0` and the loop runs once,
leaving a single point in `topPoints` and in `botPoints`. -/
theorem C6_counterexample :
    resize 0 = 0 ∧
      (Band.samples (init rndExample (initial ℚ)) (firstBand 0) (resize 0) (resize 0) 0).1.length
        = 1 ∧
      (Band.samples (init rndExample (initial ℚ)) (firstBand 0) (resize 0) (resize 0) 0).2.length
        = 1 ∧
      ¬ 2 ≤
        (Band.samples (init rndExample (initial ℚ)) (firstBand 0) (resize 0) (resize 0)
          0).1.length := by
  have hr : resize 0 = 0 := by simp [resize]
  have hl := Band.length_samples (init rndExample (initial ℚ)) (firstBand 0) 0 0 0
  rw [Band.steps_zero] at hl
  rw [hr]
  refine ⟨rfl, ?_, ?_, ?_⟩
  · have := hl.1; omega
  · have := hl.2; omega
  · have := hl.1; omega

/-- C6 (amended): for every working width the loop of `draw` leaves at least
one point in `topPoints` and in `botPoints`, and at least two whenever the
working width is positive; `resize` produces a positive working width from
every window of inner width at least 1. -/
theorem C6_at_least_two_samples (e : State α) (b : Band α) (width height : ℕ) (time : α) :
    1 ≤ (Band.samples e b width height time).1.length ∧
      1 ≤ (Band.samples e b width height time).2.length ∧
      (1 ≤ width → 2 ≤ (Band.samples e b width height time).1.length ∧
        2 ≤ (Band.samples e b width height time).2.length) ∧
      ∀ inner, 1 ≤ inner → 1 ≤ resize inner := by
  have hl := Band.length_samples e b width height time
  have h0 := Band.steps_nonneg (α := α) width
  refine ⟨by omega, by omega, ?_, ?_⟩
  · intro hw
    have h1 := Band.steps_pos (α := α) width hw
    omega
  · intro inner hi
    unfold resize
    have h1 : (0 : ℚ) < (inner : ℚ) * 0.5 := by
      have : (0 : ℚ) < inner := by exact_mod_cast hi
      positivity
    have h2 : 0 < ⌈(inner : ℚ) * 0.5⌉ := Int.ceil_pos.mpr h1
    omega

/-- Witness for C6 (amended): a window 400 pixels wide, working width
`resize 400`. -/
theorem C6_at_least_two_samples_witness :
    1 ≤ resize 400 ∧
      2 ≤ (Band.samples (init rndExample (initial ℚ)) (firstBand 0) (resize 400) 100
        7).1.length ∧
      2 ≤ (Band.samples (init rndExample (initial ℚ)) (firstBand 0) (resize 400) 100
        7).2.length :=
  have h := C6_at_least_two_samples (init rndExample (initial ℚ)) (firstBand 0) (resize 400)
    100 7
  have hr : 1 ≤ resize 400 := h.2.2.2 400 (by norm_num)
  ⟨hr, (h.2.2.1 hr).1, (h.2.2.1 hr).2⟩

/-- C7: for every sequence of draws in `[0,1)` (and any prior tables), after
`init` the first 256 entries of `perm` are a permutation of `0, .., 255`, each
value occurring exactly once; the index `j` the shuffle draws at position `i`
lies in `[0, i]`. -/
theorem C7_perm_is_permutation (rnd : ℕ → α) (hr : ∀ n, 0 ≤ rnd n ∧ rnd n < 1)
    (s : State α) :
    ((init rnd s).perm.take 256).Perm ((List.range 256).map some) ∧
      ∀ n i, shuffleIndex (rnd n) i ≤ i :=
  ⟨take_init_perm rnd hr s, fun n i => shuffleIndex_le (rnd n) (hr n).2 i⟩

/-- Witness for C7: the example stream on empty tables. -/
theorem C7_perm_is_permutation_witness :
    (∀ n, 0 ≤ rndExample n ∧ rndExample n < 1) ∧
      ((init rndExample (initial ℚ)).perm.take 256).Perm ((List.range 256).map some) ∧
      ∀ n i, shuffleIndex (rndExample n) i ≤ i :=
  ⟨rndExample_range, C7_perm_is_permutation rndExample rndExample_range (initial ℚ)⟩

/-- C8: for every sequence of draws in `[0,1)`, after `init` (on tables of at
most 512 entries, as the empty tables of the program are) both `perm` and
`grad` have length 512, `perm[i] == perm[i+256]` and `grad[i] == grad[i+256]`
for every `i` in `[0,256)`, these entries being present, and every `grad` entry
lies in `[-1,1]`. -/
theorem C8_tables_after_init (rnd : ℕ → α) (hr : ∀ n, 0 ≤ rnd n ∧ rnd n < 1)
    (s : State α) (hp : s.perm.length ≤ 512) (hg : s.grad.length ≤ 512) :
    (init rnd s).perm.length = 512 ∧ (init rnd s).grad.length = 512 ∧
      (∀ i, i < 256 → ∃ v g, jsRead (init rnd s).perm i = some v ∧
        jsRead (init rnd s).perm (i + 256) = some v ∧
        jsRead (init rnd s).grad i = some g ∧
        jsRead (init rnd s).grad (i + 256) = some g) ∧
      ∀ k g, jsRead (init rnd s).grad k = some g → -1 ≤ g ∧ g ≤ 1 := by
  have hT := tableInv_init rnd hr s hp hg
  have hD := duplicated_init rnd hr s
  refine ⟨hT.1, hT.2.1, ?_, gradBounded_of_init rnd hr s hg⟩
  intro i hi
  obtain ⟨v, hv, _⟩ := hT.2.2.1 i (by omega)
  obtain ⟨g, hg⟩ := hT.2.2.2 i (by omega)
  refine ⟨v, g, hv, ?_, hg, ?_⟩
  · rw [(hD i hi).1, hv]
  · rw [(hD i hi).2, hg]

/-- Witness for C8: the example stream on the program's empty tables. -/
theorem C8_tables_after_init_witness :
    (∀ n, 0 ≤ rndExample n ∧ rndExample n < 1) ∧ (initial ℚ).perm.length ≤ 512 ∧
      (initial ℚ).grad.length ≤ 512 ∧
      (init rndExample (initial ℚ)).perm.length = 512 ∧
      (init rndExample (initial ℚ)).grad.length = 512 ∧
      (∀ i, i < 256 → ∃ v g, jsRead (init rndExample (initial ℚ)).perm i = some v ∧
        jsRead (init rndExample (initial ℚ)).perm (i + 256) = some v ∧
        jsRead (init rndExample (initial ℚ)).grad i = some g ∧
        jsRead (init rndExample (initial ℚ)).grad (i + 256) = some g) ∧
      ∀ k g, jsRead (init rndExample (initial ℚ)).grad k = some g → -1 ≤ g ∧ g ≤ 1 :=
  ⟨rndExample_range, by simp [initial], by simp [initial],
    C8_tables_after_init rndExample rndExample_range (initial ℚ) (by simp [initial])
      (by simp [initial])⟩

/-- C10: in the driver (frame tick and show run `animate`, hide runs
`cancelAnimationFrame`), hiding changes neither the time counter nor the
frames drawn; when the last frame before the pause used counter value `T`
(the call `animate` on a state with `time = T`), a hide followed by a show
draws exactly one more frame, with counter `T + 1`, whose band time
coordinate is `0.002 * speed * (T + 1)`; and over any sequence of events the
frames drawn use consecutive counter values, the counter ending at its start
value plus the number of frames drawn (one step per frame, never down). -/
theorem C10_pause_keeps_time (d : Driver) (evs : List Driver.Event) (b : Band α) :
    (Driver.step d Driver.Event.hidden).time = d.time ∧
      (Driver.step d Driver.Event.hidden).drawn = d.drawn ∧
      (Driver.animate d).drawn = d.drawn ++ [d.time] ∧
      (Driver.run (Driver.animate d) [Driver.Event.hidden, Driver.Event.visible]).drawn =
        d.drawn ++ [d.time, d.time + 1] ∧
      Band.t b (((d.time + 1 : ℕ) : α)) = 0.002 * b.speed * ((d.time : α) + 1) ∧
      (∃ k, (Driver.run d evs).time = d.time + k ∧
        (Driver.run d evs).drawn = d.drawn ++ List.range' d.time k) ∧
      d.time ≤ (Driver.run d evs).time := by
  obtain ⟨k, hk1, hk2⟩ := Driver.run_time evs d
  refine ⟨?_, ?_, rfl, ?_, ?_, ⟨k, hk1, hk2⟩, by omega⟩
  · cases ha : d.animationId <;>
      simp [Driver.step, Driver.visibilitychange, Driver.cancel, ha]
  · cases ha : d.animationId <;>
      simp [Driver.step, Driver.visibilitychange, Driver.cancel, ha]
  · simp [Driver.run, Driver.step, Driver.visibilitychange, Driver.cancel, Driver.animate]
  · simp only [Band.t]
    push_cast
    ring

/-- C9: for every engine state over `ℝ` satisfying the table invariant (512
entries, all present, `perm` entries in `[0,255]`) whose upper halves duplicate
the lower halves, `get` is a real-valued function continuous on all of `ℝ³`;
in particular along each axis, at every integer boundary `n` (the wrap from
cell 255 to cell 0 included), the limit of `get` from below equals `get` at
`n`. -/
theorem C9_get_continuous (s : State ℝ) (hT : TableInv s) (hD : Duplicated s) :
    ∃ f : ℝ × ℝ × ℝ → ℝ, Continuous f ∧ (∀ x y z, get s x y z = some (f (x, y, z))) ∧
      ∀ (n : ℤ) (a b : ℝ),
        Filter.Tendsto (fun x => f (x, a, b)) (nhdsWithin (n : ℝ) (Set.Iio (n : ℝ)))
          (nhds (f ((n : ℝ), a, b))) ∧
        Filter.Tendsto (fun y => f (a, y, b)) (nhdsWithin (n : ℝ) (Set.Iio (n : ℝ)))
          (nhds (f (a, (n : ℝ), b))) ∧
        Filter.Tendsto (fun z => f (a, b, z)) (nhdsWithin (n : ℝ) (Set.Iio (n : ℝ)))
          (nhds (f (a, b, (n : ℝ)))) := by
  have hc := continuous_getVal s hT.2.2 hD
  refine ⟨fun p => getVal s p.1 p.2.1 p.2.2, hc, fun x y z => get_eq_some s hT.2.2 x y z, ?_⟩
  intro n a b
  have hx : Continuous (fun x : ℝ => ((x, a, b) : ℝ × ℝ × ℝ)) :=
    continuous_id.prod_mk continuous_const
  have hy : Continuous (fun y : ℝ => ((a, y, b) : ℝ × ℝ × ℝ)) :=
    continuous_const.prod_mk (continuous_id.prod_mk continuous_const)
  have hz : Continuous (fun z : ℝ => ((a, b, z) : ℝ × ℝ × ℝ)) :=
    continuous_const.prod_mk (continuous_const.prod_mk continuous_id)
  exact ⟨((hc.comp hx).tendsto (n : ℝ)).mono_left nhdsWithin_le_nhds,
    ((hc.comp hy).tendsto (n : ℝ)).mono_left nhdsWithin_le_nhds,
    ((hc.comp hz).tendsto (n : ℝ)).mono_left nhdsWithin_le_nhds⟩

/-- Witness for C9: the tables `init` builds over `ℝ` when every draw is `0`. -/
theorem C9_get_continuous_witness :
    TableInv (init (fun _ => (0 : ℝ)) (initial ℝ)) ∧
      Duplicated (init (fun _ => (0 : ℝ)) (initial ℝ)) ∧
      ∃ f : ℝ × ℝ × ℝ → ℝ, Continuous f ∧
        (∀ x y z, get (init (fun _ => (0 : ℝ)) (initial ℝ)) x y z = some (f (x, y, z))) ∧
        ∀ (n : ℤ) (a b : ℝ),
          Filter.Tendsto (fun x => f (x, a, b)) (nhdsWithin (n : ℝ) (Set.Iio (n : ℝ)))
            (nhds (f ((n : ℝ), a, b))) ∧
          Filter.Tendsto (fun y => f (a, y, b)) (nhdsWithin (n : ℝ) (Set.Iio (n : ℝ)))
            (nhds (f (a, (n : ℝ), b))) ∧
          Filter.Tendsto (fun z => f (a, b, z)) (nhdsWithin (n : ℝ) (Set.Iio (n : ℝ)))
            (nhds (f (a, b, (n : ℝ)))) :=
  have hr : ∀ n : ℕ, (0 : ℝ) ≤ (fun _ => (0 : ℝ)) n ∧ (fun _ => (0 : ℝ)) n < 1 :=
    fun _ => ⟨le_refl _, zero_lt_one⟩
  have hT := tableInv_init (fun _ => (0 : ℝ)) hr (initial ℝ) (by simp [initial])
    (by simp [initial])
  have hD := duplicated_init (fun _ => (0 : ℝ)) hr (initial ℝ)
  ⟨hT, hD, C9_get_continuous _ hT hD⟩

/-! ## Further lemmas on the tables and on `get` -/

namespace noise

theorem jsRead_shuffleLoop_uniform (rnd : ℕ → α) (hr : ∀ n, 0 ≤ rnd n ∧ rnd n < 1)
    (k : ℕ) (hk : k ≤ 255) :
    ∃ σ : Equiv.Perm ℕ, (∀ m, 256 ≤ m → σ m = m) ∧
      ∀ (p : List (Option ℕ)) (m : ℕ), jsRead (shuffleLoop rnd k p) m = jsRead p (σ m) := by
  induction k with
  | zero => exact ⟨Equiv.refl ℕ, fun _ _ => rfl, fun _ _ => rfl⟩
  | succ k ih =>
    obtain ⟨σ, hfix, hread⟩ := ih (by omega)
    have hj := shuffleIndex_le (rnd (256 + k)) (hr _).2 (255 - k)
    refine ⟨(Equiv.swap (255 - k) (shuffleIndex (rnd (256 + k)) (255 - k))).trans σ, ?_, ?_⟩
    · intro m hm
      have h1 : m ≠ 255 - k := by omega
      have h2 : m ≠ shuffleIndex (rnd (256 + k)) (255 - k) := by omega
      simp [Equiv.swap_apply_of_ne_of_ne h1 h2, hfix m hm]
    · intro p m
      simp only [shuffleLoop, jsRead_swap, hread, Equiv.trans_apply]
      by_cases h2 : m = shuffleIndex (rnd (256 + k)) (255 - k)
      · rw [if_pos h2, h2, Equiv.swap_apply_right]
      · rw [if_neg h2]
        by_cases h1 : m = 255 - k
        · rw [if_pos h1, h1, Equiv.swap_apply_left]
        · rw [if_neg h1, Equiv.swap_apply_of_ne_of_ne h1 h2]

theorem jsRead_init_perm_uniform (rnd : ℕ → α) (hr : ∀ n, 0 ≤ rnd n ∧ rnd n < 1) :
    ∃ σ : Equiv.Perm ℕ, ∀ (s : State α) (k : ℕ), k < 512 →
      jsRead (init rnd s).perm k = some (σ (k % 256)) := by
  obtain ⟨σ, hfix, hread⟩ := jsRead_shuffleLoop_uniform rnd hr 255 (le_refl _)
  have hlt : ∀ m, m < 256 → σ m < 256 := by
    intro m hm
    by_contra hge
    have h1 : σ (σ m) = σ m := hfix _ (by omega)
    have h2 : σ m = m := σ.injective h1
    omega
  refine ⟨σ, ?_⟩
  intro s k hk
  simp only [init]
  rw [jsRead_dupLoop_perm 256 (le_refl _)]
  by_cases h : 256 ≤ k ∧ k < 256 + 256
  · rw [if_pos h]
    simp only [hread, jsRead_fillLoop_perm]
    have e : k % 256 = k - 256 := by omega
    rw [e, if_pos (hlt _ (by omega))]
  · rw [if_neg h]
    simp only [hread, jsRead_fillLoop_perm]
    have e : k % 256 = k := by omega
    rw [e, if_pos (hlt _ (by omega))]

theorem ext_of_jsRead {β : Type} (l1 l2 : List (Option β)) (hlen : l1.length = l2.length)
    (h : ∀ k, k < l1.length → jsRead l1 k = jsRead l2 k) : l1 = l2 := by
  apply List.ext_getElem hlen
  intro k h1 h2
  have e := h k h1
  simp only [jsRead, List.get?_eq_getElem?, List.getElem?_eq_getElem h1,
    List.getElem?_eq_getElem h2, Option.join] at e
  simpa using e

theorem init_eq_of_prior (rnd : ℕ → α) (hr : ∀ n, 0 ≤ rnd n ∧ rnd n < 1) (s1 s2 : State α)
    (hp1 : s1.perm.length ≤ 512) (hg1 : s1.grad.length ≤ 512)
    (hp2 : s2.perm.length ≤ 512) (hg2 : s2.grad.length ≤ 512) :
    (init rnd s1).perm = (init rnd s2).perm ∧ (init rnd s1).grad = (init rnd s2).grad := by
  obtain ⟨σ, hσ⟩ := jsRead_init_perm_uniform rnd hr
  have l1 := length_init rnd hr s1
  have l2 := length_init rnd hr s2
  have a1 : (init rnd s1).perm.length = 512 := by rw [l1.1]; omega
  have a2 : (init rnd s2).perm.length = 512 := by rw [l2.1]; omega
  have b1 : (init rnd s1).grad.length = 512 := by rw [l1.2]; omega
  have b2 : (init rnd s2).grad.length = 512 := by rw [l2.2]; omega
  constructor
  · apply ext_of_jsRead _ _ (by rw [a1, a2])
    intro k hk
    rw [a1] at hk
    rw [hσ s1 k hk, hσ s2 k hk]
  · apply ext_of_jsRead _ _ (by rw [b1, b2])
    intro k hk
    rw [b1] at hk
    rw [jsRead_init_grad rnd s1 k hk, jsRead_init_grad rnd s2 k hk]

theorem permIndices_eq (s : State α) (hL : Lookups s) (x y z : α) :
    permIndices s x y z =
      [some (cell x), some (permVal s (cell x) + cell y),
        some (permVal s (cell x) + cell y + 1), some (cell x + 1),
        some (permVal s (cell x + 1) + cell y),
        some (permVal s (cell x + 1) + cell y + 1)] := by
  have hX := cell_lt x
  simp only [permIndices]
  rw [permAt_some s hL (cell x) _ (by omega), permAt_some s hL (cell x + 1) _ (by omega)]
  simp only [succJS_some]

theorem gradIndices_eq (s : State α) (hL : Lookups s) (x y z : α) :
    gradIndices s x y z =
      [some (permVal s (permVal s (cell x) + cell y) + cell z),
        some (permVal s (permVal s (cell x + 1) + cell y) + cell z),
        some (permVal s (permVal s (cell x) + cell y + 1) + cell z),
        some (permVal s (permVal s (cell x + 1) + cell y + 1) + cell z),
        some (permVal s (permVal s (cell x) + cell y) + cell z + 1),
        some (permVal s (permVal s (cell x + 1) + cell y) + cell z + 1),
        some (permVal s (permVal s (cell x) + cell y + 1) + cell z + 1),
        some (permVal s (permVal s (cell x + 1) + cell y + 1) + cell z + 1)] := by
  have hX := cell_lt x
  have hY := cell_lt y
  have hA := permVal_lt s hL (cell x) (by omega)
  have hB := permVal_lt s hL (cell x + 1) (by omega)
  simp only [gradIndices]
  rw [permAt_some s hL (cell x) _ (by omega), permAt_some s hL (cell x + 1) _ (by omega)]
  simp only [succJS_some]
  rw [permAt_some s hL _ (cell z) (by omega), permAt_some s hL _ (cell z) (by omega),
    permAt_some s hL _ (cell z) (by omega), permAt_some s hL _ (cell z) (by omega)]
  simp only [succJS_some]

theorem getRun_eq (s : State α) (x y z : α) : getRun s x y z = (get s x y z, s) := rfl

theorem cell_add_256 (x : α) : cell (x + 256) = cell x := by
  unfold cell
  have h : ⌊x + 256⌋ = ⌊x⌋ + 256 := by simp
  rw [h]
  congr 1
  omega

theorem fract_add_256 (x : α) : x + 256 - (⌊x + 256⌋ : α) = x - (⌊x⌋ : α) := by
  have h : ⌊x + 256⌋ = ⌊x⌋ + 256 := by simp
  rw [h]
  push_cast
  ring

theorem gradReads_eq (s : State α) (hL : Lookups s) (x y z : α) :
    gradReads s x y z =
      [some (gradVal s (permVal s (permVal s (cell x) + cell y) + cell z)),
        some (gradVal s (permVal s (permVal s (cell x + 1) + cell y) + cell z)),
        some (gradVal s (permVal s (permVal s (cell x) + cell y + 1) + cell z)),
        some (gradVal s (permVal s (permVal s (cell x + 1) + cell y + 1) + cell z)),
        some (gradVal s (permVal s (permVal s (cell x) + cell y) + cell z + 1)),
        some (gradVal s (permVal s (permVal s (cell x + 1) + cell y) + cell z + 1)),
        some (gradVal s (permVal s (permVal s (cell x) + cell y + 1) + cell z + 1)),
        some (gradVal s (permVal s (permVal s (cell x + 1) + cell y + 1) + cell z + 1))] := by
  have hX := cell_lt x
  have hY := cell_lt y
  have hZ := cell_lt z
  have hA := permVal_lt s hL (cell x) (by omega)
  have hB := permVal_lt s hL (cell x + 1) (by omega)
  have hAA := permVal_lt s hL (permVal s (cell x) + cell y) (by omega)
  have hAB := permVal_lt s hL (permVal s (cell x) + cell y + 1) (by omega)
  have hBA := permVal_lt s hL (permVal s (cell x + 1) + cell y) (by omega)
  have hBB := permVal_lt s hL (permVal s (cell x + 1) + cell y + 1) (by omega)
  simp only [gradReads, gradIndices_eq s hL, List.map_cons, List.map_nil]
  rw [gradAt_some s hL _ (by omega), gradAt_some s hL _ (by omega),
    gradAt_some s hL _ (by omega), gradAt_some s hL _ (by omega),
    gradAt_some s hL _ (by omega), gradAt_some s hL _ (by omega),
    gradAt_some s hL _ (by omega), gradAt_some s hL _ (by omega)]

theorem getVal_between (s : State α) (hL : Lookups s) (x y z lo hi : α)
    (h : ∀ g, some g ∈ gradReads s x y z → lo ≤ g ∧ g ≤ hi) :
    lo ≤ getVal s x y z ∧ getVal s x y z ≤ hi := by
  rw [gradReads_eq s hL] at h
  obtain ⟨u0, u1⟩ := fade_fract_mem x
  obtain ⟨v0, v1⟩ := fade_fract_mem y
  obtain ⟨w0, w1⟩ := fade_fract_mem z
  simp only [getVal]
  apply lerp_mem lo hi _ _ _ w0 w1
  · apply lerp_mem lo hi _ _ _ v0 v1
    · exact lerp_mem lo hi _ _ _ u0 u1 (h _ (by simp)) (h _ (by simp))
    · exact lerp_mem lo hi _ _ _ u0 u1 (h _ (by simp)) (h _ (by simp))
  · apply lerp_mem lo hi _ _ _ v0 v1
    · exact lerp_mem lo hi _ _ _ u0 u1 (h _ (by simp)) (h _ (by simp))
    · exact lerp_mem lo hi _ _ _ u0 u1 (h _ (by simp)) (h _ (by simp))

theorem exists_min_max_of_ne_nil (l : List α) (hl : l ≠ []) :
    ∃ a b, a ∈ l ∧ b ∈ l ∧ ∀ g, g ∈ l → a ≤ g ∧ g ≤ b := by
  have hne : l.toFinset.Nonempty := by
    rw [List.toFinset_nonempty_iff]; exact hl
  obtain ⟨a, ha, hamin⟩ := Finset.exists_min_image l.toFinset id hne
  obtain ⟨b, hb, hbmax⟩ := Finset.exists_max_image l.toFinset id hne
  refine ⟨a, b, List.mem_toFinset.mp ha, List.mem_toFinset.mp hb, ?_⟩
  intro g hg
  exact ⟨hamin g (List.mem_toFinset.mpr hg), hbmax g (List.mem_toFinset.mpr hg)⟩

end noise

/-- C13: `init` fully overwrites prior state: for any two prior engine states
whose tables have at most 512 entries and the same sequence of draws (in
`[0,1)`), `init` produces identical `perm` and `grad` tables, hence the same
engine state. -/
theorem C13_init_overwrites (rnd : ℕ → α) (hr : ∀ n, 0 ≤ rnd n ∧ rnd n < 1)
    (s1 s2 : State α) (hp1 : s1.perm.length ≤ 512) (hg1 : s1.grad.length ≤ 512)
    (hp2 : s2.perm.length ≤ 512) (hg2 : s2.grad.length ≤ 512) :
    (init rnd s1).perm = (init rnd s2).perm ∧ (init rnd s1).grad = (init rnd s2).grad ∧
      init rnd s1 = init rnd s2 := by
  obtain ⟨h1, h2⟩ := init_eq_of_prior rnd hr s1 s2 hp1 hg1 hp2 hg2
  refine ⟨h1, h2, ?_⟩
  cases e1 : init rnd s1 with
  | mk p1 g1 =>
    cases e2 : init rnd s2 with
    | mk p2 g2 =>
      rw [e1, e2] at h1 h2
      simp only at h1 h2
      rw [h1, h2]

/-- Witness for C13: the example stream, run on the empty tables and on
tables that already hold one entry each. -/
theorem C13_init_overwrites_witness :
    (∀ n, 0 ≤ rndExample n ∧ rndExample n < 1) ∧
      (initial ℚ).perm.length ≤ 512 ∧ (initial ℚ).grad.length ≤ 512 ∧
      (⟨[some 7], [some 3]⟩ : State ℚ).perm.length ≤ 512 ∧
      (⟨[some 7], [some 3]⟩ : State ℚ).grad.length ≤ 512 ∧
      (init rndExample (initial ℚ)).perm = (init rndExample ⟨[some 7], [some 3]⟩).perm ∧
      (init rndExample (initial ℚ)).grad = (init rndExample ⟨[some 7], [some 3]⟩).grad ∧
      init rndExample (initial ℚ) = init rndExample ⟨[some 7], [some 3]⟩ :=
  ⟨rndExample_range, by simp [initial], by simp [initial], by simp, by simp,
    C13_init_overwrites rndExample rndExample_range (initial ℚ) ⟨[some 7], [some 3]⟩
      (by simp [initial]) (by simp [initial]) (by simp) (by simp)⟩

/-- C15: `get` only reads the tables: run as a state-passing program, a call
returns the value of `get` and leaves `perm` and `grad` as they were, so a
second call with the same arguments on the engine the first call left
returns the identical value. -/
theorem C15_get_reads_only (s : State α) (x y z : α) :
    (getRun s x y z).2 = s ∧ (getRun s x y z).2.perm = s.perm ∧
      (getRun s x y z).2.grad = s.grad ∧ (getRun s x y z).1 = get s x y z ∧
      (getRun (getRun s x y z).2 x y z).1 = (getRun s x y z).1 := by
  rw [getRun_eq]
  exact ⟨rfl, rfl, rfl, rfl, by rw [getRun_eq]⟩

/-- C16: for every engine state satisfying the table invariant (length 512,
all entries present, `perm` entries in `[0,255]`) and all `x y z`, every index
at which `get` reads `perm` (`X`, `X+1`, `A`, `A+1`, `B`, `B+1`) or `grad`
(`AA`, `AB`, `BA`, `BB` and each of them `+1`) is a number in `[0, 511]`, inside
the table, where an entry is present; and `get` returns a number. -/
theorem C16_lookups_in_bounds (s : State α) (hT : TableInv s) (x y z : α) :
    (∀ a, a ∈ permIndices s x y z → ∃ i, a = some i ∧ i ≤ 511 ∧ i < s.perm.length ∧
        ∃ v, jsRead s.perm i = some v) ∧
      (∀ a, a ∈ gradIndices s x y z → ∃ i, a = some i ∧ i ≤ 511 ∧ i < s.grad.length ∧
        ∃ g, jsRead s.grad i = some g) ∧
      ∃ v, get s x y z = some v := by
  obtain ⟨hlp, hlg, hL⟩ := hT
  have hX := cell_lt x
  have hY := cell_lt y
  have hZ := cell_lt z
  have hA := permVal_lt s hL (cell x) (by omega)
  have hB := permVal_lt s hL (cell x + 1) (by omega)
  have hAA := permVal_lt s hL (permVal s (cell x) + cell y) (by omega)
  have hAB := permVal_lt s hL (permVal s (cell x) + cell y + 1) (by omega)
  have hBA := permVal_lt s hL (permVal s (cell x + 1) + cell y) (by omega)
  have hBB := permVal_lt s hL (permVal s (cell x + 1) + cell y + 1) (by omega)
  have hp : ∀ i, i < 512 → ∃ j, some i = some j ∧ j ≤ 511 ∧ j < s.perm.length ∧
      ∃ v, jsRead s.perm j = some v := by
    intro i hi
    obtain ⟨v, hv, _⟩ := hL.1 i hi
    exact ⟨i, rfl, by omega, by omega, v, hv⟩
  have hg : ∀ i, i < 512 → ∃ j, some i = some j ∧ j ≤ 511 ∧ j < s.grad.length ∧
      ∃ g, jsRead s.grad j = some g := by
    intro i hi
    obtain ⟨g, hg⟩ := hL.2 i hi
    exact ⟨i, rfl, by omega, by omega, g, hg⟩
  refine ⟨?_, ?_, ⟨_, get_eq_some s hL x y z⟩⟩
  · intro a ha
    rw [permIndices_eq s hL] at ha
    simp only [List.mem_cons, List.mem_singleton, List.mem_nil_iff, or_false] at ha
    rcases ha with rfl | rfl | rfl | rfl | rfl | rfl <;> exact hp _ (by omega)
  · intro a ha
    rw [gradIndices_eq s hL] at ha
    simp only [List.mem_cons, List.mem_singleton, List.mem_nil_iff, or_false] at ha
    rcases ha with rfl | rfl | rfl | rfl | rfl | rfl | rfl | rfl <;> exact hg _ (by omega)

/-- Witness for C16: the tables built from the example stream, sampled at
`(1/2, -7/3, 511)`. -/
theorem C16_lookups_in_bounds_witness :
    TableInv (init rndExample (initial ℚ)) ∧
      (∀ a, a ∈ permIndices (init rndExample (initial ℚ)) (1 / 2) (-7 / 3) 511 →
        ∃ i, a = some i ∧ i ≤ 511 ∧ i < (init rndExample (initial ℚ)).perm.length ∧
          ∃ v, jsRead (init rndExample (initial ℚ)).perm i = some v) ∧
      (∀ a, a ∈ gradIndices (init rndExample (initial ℚ)) (1 / 2) (-7 / 3) 511 →
        ∃ i, a = some i ∧ i ≤ 511 ∧ i < (init rndExample (initial ℚ)).grad.length ∧
          ∃ g, jsRead (init rndExample (initial ℚ)).grad i = some g) ∧
      ∃ v, get (init rndExample (initial ℚ)) (1 / 2) (-7 / 3) 511 = some v :=
  have hT := tableInv_init rndExample rndExample_range (initial ℚ) (by simp [initial])
    (by simp [initial])
  ⟨hT, C16_lookups_in_bounds _ hT (1 / 2) (-7 / 3) 511⟩

/-- C18: for every engine state satisfying the table invariant and all
`x y z`, `get(x, y, z)` is a number lying between the least and the greatest
of the 8 gradient values it reads; hence with gradients in `[-1,1]` it lies in
`[-1,1]`. -/
theorem C18_get_between_corners (s : State α) (hT : TableInv s) (x y z : α) :
    ∃ v, get s x y z = some v ∧
      (∃ gmin gmax, some gmin ∈ gradReads s x y z ∧ some gmax ∈ gradReads s x y z ∧
        (∀ g, some g ∈ gradReads s x y z → gmin ≤ g ∧ g ≤ gmax) ∧
        gmin ≤ v ∧ v ≤ gmax) ∧
      (GradBounded s → -1 ≤ v ∧ v ≤ 1) := by
  have hL := hT.2.2
  refine ⟨getVal s x y z, get_eq_some s hL x y z, ?_, ?_⟩
  · have hgr := gradReads_eq s hL x y z
    obtain ⟨a, b, ha, hb, hab⟩ := exists_min_max_of_ne_nil
      [gradVal s (permVal s (permVal s (cell x) + cell y) + cell z),
        gradVal s (permVal s (permVal s (cell x + 1) + cell y) + cell z),
        gradVal s (permVal s (permVal s (cell x) + cell y + 1) + cell z),
        gradVal s (permVal s (permVal s (cell x + 1) + cell y + 1) + cell z),
        gradVal s (permVal s (permVal s (cell x) + cell y) + cell z + 1),
        gradVal s (permVal s (permVal s (cell x + 1) + cell y) + cell z + 1),
        gradVal s (permVal s (permVal s (cell x) + cell y + 1) + cell z + 1),
        gradVal s (permVal s (permVal s (cell x + 1) + cell y + 1) + cell z + 1)]
      (by simp)
    have hmem : ∀ g, some g ∈ gradReads s x y z ↔ g ∈
        [gradVal s (permVal s (permVal s (cell x) + cell y) + cell z),
        gradVal s (permVal s (permVal s (cell x + 1) + cell y) + cell z),
        gradVal s (permVal s (permVal s (cell x) + cell y + 1) + cell z),
        gradVal s (permVal s (permVal s (cell x + 1) + cell y + 1) + cell z),
        gradVal s (permVal s (permVal s (cell x) + cell y) + cell z + 1),
        gradVal s (permVal s (permVal s (cell x + 1) + cell y) + cell z + 1),
        gradVal s (permVal s (permVal s (cell x) + cell y + 1) + cell z + 1),
        gradVal s (permVal s (permVal s (cell x + 1) + cell y + 1) + cell z + 1)] := by
      intro g
      rw [hgr]
      simp only [List.mem_cons, Option.some.injEq, List.mem_singleton, List.mem_nil_iff,
        or_false]
    have hall : ∀ g, some g ∈ gradReads s x y z → a ≤ g ∧ g ≤ b :=
      fun g hg => hab g ((hmem g).mp hg)
    exact ⟨a, b, (hmem a).mpr ha, (hmem b).mpr hb, hall,
      getVal_between s hL x y z a b hall⟩
  · intro hG
    exact getVal_unit s hL (fun k _ g hg => hG k g hg) x y z

/-- Witness for C18: the tables built from the example stream, sampled at
`(1/2, 1/3, 7)`. -/
theorem C18_get_between_corners_witness :
    TableInv (init rndExample (initial ℚ)) ∧
      ∃ v, get (init rndExample (initial ℚ)) (1 / 2) (1 / 3) 7 = some v ∧
        (∃ gmin gmax, some gmin ∈ gradReads (init rndExample (initial ℚ)) (1 / 2) (1 / 3) 7 ∧
          some gmax ∈ gradReads (init rndExample (initial ℚ)) (1 / 2) (1 / 3) 7 ∧
          (∀ g, some g ∈ gradReads (init rndExample (initial ℚ)) (1 / 2) (1 / 3) 7 →
            gmin ≤ g ∧ g ≤ gmax) ∧
          gmin ≤ v ∧ v ≤ gmax) ∧
        (GradBounded (init rndExample (initial ℚ)) → -1 ≤ v ∧ v ≤ 1) :=
  have hT := tableInv_init rndExample rndExample_range (initial ℚ) (by simp [initial])
    (by simp [initial])
  ⟨hT, C18_get_between_corners _ hT (1 / 2) (1 / 3) 7⟩

/-- C19: for every engine state satisfying the table invariant and all
integers `i j k`, `get(i, j, k)` is the single table entry
`grad[perm[perm[i mod 256] + (j mod 256)] + (k mod 256)]`, the three entries
being present. -/
theorem C19_get_at_lattice (s : State α) (hT : TableInv s) (i j k : ℤ) :
    ∃ a b g, jsRead s.perm (i % 256).toNat = some a ∧
      jsRead s.perm (a + (j % 256).toNat) = some b ∧
      jsRead s.grad (b + (k % 256).toNat) = some g ∧
      get s (i : α) (j : α) (k : α) = some g := by
  have hL := hT.2.2
  have hi := emod_toNat_lt i
  have hj := emod_toNat_lt j
  have hk := emod_toNat_lt k
  obtain ⟨a, ha, ha256⟩ := hL.1 (i % 256).toNat (by omega)
  obtain ⟨b, hb, hb256⟩ := hL.1 (a + (j % 256).toNat) (by omega)
  obtain ⟨g, hg⟩ := hL.2 (b + (k % 256).toNat) (by omega)
  refine ⟨a, b, g, ha, hb, hg, ?_⟩
  rw [get_eq_some s hL, getVal_lattice]
  simp only [cell_intCast, permVal, gradVal, ha, hb, hg, Option.getD_some]

/-- Witness for C19: the tables built from the example stream, at the
lattice point `(300, -1, 5)`. -/
theorem C19_get_at_lattice_witness :
    TableInv (init rndExample (initial ℚ)) ∧
      ∃ a b g, jsRead (init rndExample (initial ℚ)).perm ((300 : ℤ) % 256).toNat = some a ∧
        jsRead (init rndExample (initial ℚ)).perm (a + ((-1 : ℤ) % 256).toNat) = some b ∧
        jsRead (init rndExample (initial ℚ)).grad (b + ((5 : ℤ) % 256).toNat) = some g ∧
        get (init rndExample (initial ℚ)) ((300 : ℤ) : ℚ) ((-1 : ℤ) : ℚ) ((5 : ℤ) : ℚ) =
          some g :=
  have hT := tableInv_init rndExample rndExample_range (initial ℚ) (by simp [initial])
    (by simp [initial])
  ⟨hT, C19_get_at_lattice _ hT 300 (-1) 5⟩

/-- C20: `get` has period 256 along each axis: for every engine state and all
`x y z`, `get(x + 256, y, z)`, `get(x, y + 256, z)` and `get(x, y, z + 256)` all
equal `get(x, y, z)`. -/
theorem C20_get_periodic (s : State α) (x y z : α) :
    get s (x + 256) y z = get s x y z ∧ get s x (y + 256) z = get s x y z ∧
      get s x y (z + 256) = get s x y z := by
  refine ⟨?_, ?_, ?_⟩ <;> simp only [noise.get, cell_add_256, fract_add_256]

/-! ## The path built by `draw` -/

namespace Band

theorem get?_eq_some_getD {β : Type} (l : List β) (i : ℕ) (h : i < l.length) (d : β) :
    l.get? i = some (l.getD i d) := by
  rw [List.get?_eq_getElem?, List.getElem?_eq_getElem h, List.getD_eq_getElem _ _ h]

theorem topCurves_eq (tops : List (Point α)) (k : ℕ) (hk : k + 1 ≤ tops.length) :
    topCurves tops k = some ((List.range k).map (fun j =>
      Cmd.quadraticCurveTo (tops.getD j ⟨none, none⟩).x (tops.getD j ⟨none, none⟩).y
        (mid (tops.getD j ⟨none, none⟩).x (tops.getD (j + 1) ⟨none, none⟩).x)
        (mid (tops.getD j ⟨none, none⟩).y (tops.getD (j + 1) ⟨none, none⟩).y))) := by
  induction k with
  | zero => rfl
  | succ k ih =>
    simp only [topCurves, ih (by omega), Option.some_bind,
      get?_eq_some_getD tops k (by omega) ⟨none, none⟩,
      get?_eq_some_getD tops (k + 1) (by omega) ⟨none, none⟩, Option.map_some',
      List.range_succ, List.map_append, List.map_cons, List.map_nil]

theorem botEdge_eq (bots : List (Point α)) (k : ℕ) (hk : k + 1 ≤ bots.length) :
    botEdge bots (k + 1) = some
      (Cmd.lineTo (bots.getD (bots.length - 1) ⟨none, none⟩).x
          (bots.getD (bots.length - 1) ⟨none, none⟩).y ::
        (List.range k).map (fun j =>
          Cmd.quadraticCurveTo (bots.getD (bots.length - 2 - j + 1) ⟨none, none⟩).x
            (bots.getD (bots.length - 2 - j + 1) ⟨none, none⟩).y
            (mid (bots.getD (bots.length - 2 - j + 1) ⟨none, none⟩).x
              (bots.getD (bots.length - 2 - j) ⟨none, none⟩).x)
            (mid (bots.getD (bots.length - 2 - j + 1) ⟨none, none⟩).y
              (bots.getD (bots.length - 2 - j) ⟨none, none⟩).y))) := by
  induction k with
  | zero =>
    simp only [botEdge, Option.some_bind, Nat.sub_zero, if_true,
      get?_eq_some_getD bots (bots.length - 1) (by omega) ⟨none, none⟩, Option.map_some',
      List.nil_append, List.range_zero, List.map_nil]
  | succ k ih =>
    have hne : ¬ (bots.length - 2 - k = bots.length - 1) := by omega
    have e : bots.length - 1 - (k + 1) = bots.length - 2 - k := by omega
    rw [botEdge, ih (by omega)]
    simp only [Option.some_bind, e, if_neg hne,
      get?_eq_some_getD bots (bots.length - 2 - k + 1) (by omega) ⟨none, none⟩,
      get?_eq_some_getD bots (bots.length - 2 - k) (by omega) ⟨none, none⟩, Option.map_some',
      List.range_succ, List.map_append, List.map_cons, List.map_nil, List.cons_append]

theorem path_eq (tops bots : List (Point α)) (n : ℕ) (hn : 1 ≤ n) (ht : tops.length = n)
    (hb : bots.length = n) : path tops bots = some (pathSpec tops bots) := by
  have h0 := get?_eq_some_getD tops 0 (by omega) ⟨none, none⟩
  have h1 := topCurves_eq tops (n - 1) (by omega)
  have h2 := get?_eq_some_getD tops (n - 1) (by omega) ⟨none, none⟩
  have h3 := botEdge_eq bots (n - 1) (by omega)
  have e1 : n - 1 + 1 = n := by omega
  rw [e1, hb] at h3
  simp only [path, ht, hb, h0, h1, h2, h3, Option.some_bind, Option.map_some', pathSpec]
  simp only [List.append_assoc, List.cons_append, List.nil_append]

theorem countP_isCurve_map (m : ℕ) (a b c d : ℕ → Option α) :
    List.countP Cmd.isCurve
      ((List.range m).map (fun k => Cmd.quadraticCurveTo (a k) (b k) (c k) (d k))) = m := by
  rw [List.countP_eq_length.mpr]
  · simp
  · intro q hq
    obtain ⟨k, _, rfl⟩ := List.mem_map.mp hq
    rfl

theorem pathSpec_curves (tops bots : List (Point α)) :
    (pathSpec tops bots).countP Cmd.isCurve = 2 * (tops.length - 1) := by
  simp only [pathSpec, List.countP_append]
  rw [countP_isCurve_map, countP_isCurve_map]
  simp [List.countP_cons, Cmd.isCurve]
  omega

theorem pathSpec_members (tops bots : List (Point α)) (c : Cmd α)
    (hc : c ∈ pathSpec tops bots) :
    c ≠ Cmd.fill ∧ c ≠ Cmd.stroke ∧ c ≠ Cmd.beginPath ∧ c ≠ Cmd.fillStyle := by
  simp only [pathSpec, List.mem_append, List.mem_map, List.mem_cons, List.mem_singleton,
    List.mem_nil_iff, or_false] at hc
  rcases hc with (((rfl | ⟨_, _, rfl⟩) | (rfl | rfl)) | ⟨_, _, rfl⟩) | rfl <;>
    exact ⟨by simp, by simp, by simp, by simp⟩

theorem pathSpec_stop (tops bots : List (Point α)) :
    (pathSpec tops bots).filterMap Cmd.stop = [] := by
  rw [List.filterMap_eq_nil_iff]
  intro c hc
  simp only [pathSpec, List.mem_append, List.mem_map, List.mem_cons, List.mem_singleton,
    List.mem_nil_iff, or_false] at hc
  rcases hc with (((rfl | ⟨_, _, rfl⟩) | (rfl | rfl)) | ⟨_, _, rfl⟩) | rfl <;> rfl

theorem foldl_jsOp_some (pts : List (Point α)) (h : ∀ p, p ∈ pts → ∃ v, p.y = some v)
    (acc : α) :
    ∃ total, pts.foldl (fun s p => jsOp (fun a c => a + c) s p.y) (some acc) = some total := by
  induction pts generalizing acc with
  | nil => exact ⟨acc, rfl⟩
  | cons p ps ih =>
    obtain ⟨v, hv⟩ := h p (List.mem_cons_self _ _)
    simp only [List.foldl_cons, hv, jsOp, Option.some_bind, Option.map_some']
    exact ih (fun q hq => h q (List.mem_cons_of_mem _ hq)) _

theorem avgY_some (pts : List (Point α)) (hlen : 1 ≤ pts.length)
    (h : ∀ p, p ∈ pts → ∃ v, p.y = some v) : ∃ a, avgY pts = some a := by
  obtain ⟨total, ht⟩ := foldl_jsOp_some pts h 0
  have hne : ((pts.length : ℕ) : α) ≠ 0 := Nat.cast_ne_zero.mpr (by omega)
  exact ⟨total / (pts.length : α), by
    simp only [avgY, ht, Option.some_bind, jsDiv, if_neg hne]⟩

theorem render_eq (b : Band α) (height : ℕ) (tops bots : List (Point α)) (n : ℕ)
    (hn : 1 ≤ n) (ht : tops.length = n) (hb : bots.length = n)
    (hty : ∀ p, p ∈ tops → ∃ v, p.y = some v) (hby : ∀ p, p ∈ bots → ∃ v, p.y = some v) :
    render b height tops bots = some
      ([Cmd.beginPath, Cmd.moveTo (some 0) (some (height : α)),
        Cmd.createLinearGradient (some 0) (avgY tops) (some 0) (avgY bots)] ++
      colorStops b ++ [Cmd.beginPath] ++ pathSpec tops bots ++ [Cmd.fillStyle, Cmd.fill]) := by
  obtain ⟨a1, h1⟩ := avgY_some tops (by omega) hty
  obtain ⟨a2, h2⟩ := avgY_some bots (by omega) hby
  simp only [render, h1, h2, Option.some_bind, path_eq tops bots n hn ht hb, Option.map_some']

theorem samples_numbers (e : noise.State α) (hL : noise.Lookups e) (b : Band α)
    (width height : ℕ) (hw : 0 < width) (time : α) :
    (∀ p, p ∈ (samples e b width height time).1 → ∃ v, p.y = some v) ∧
      (∀ p, p ∈ (samples e b width height time).2 → ∃ v, p.y = some v) := by
  constructor
  · intro p hp
    simp only [samples, List.mem_map] at hp
    obtain ⟨i, _, rfl⟩ := hp
    obtain ⟨c, h1, _⟩ := point_some e hL b width height time i _ (xNorm_eq width i hw)
    exact ⟨_, h1⟩
  · intro p hp
    simp only [samples, List.mem_map] at hp
    obtain ⟨i, _, rfl⟩ := hp
    obtain ⟨c, _, h2⟩ := point_some e hL b width height time i _ (xNorm_eq width i hw)
    exact ⟨_, h2⟩

theorem draw_width_zero (e : noise.State α) (b : Band α) (height : ℕ) (time : α) :
    draw e b 0 height time = none := by
  have hx : (xNorm 0 0 : Option α) = none := by simp [xNorm, steps_zero, jsDiv]
  have hy : (topPoint e b 0 height time 0).y = none := by
    simp [topPoint, yCenter, n1, n2, n3, hx, jsOp]
  have hs : (samples e b 0 height time).1 = [topPoint e b 0 height time 0] := by
    simp only [samples, steps_zero]
    rfl
  simp [draw, render, hs, avgY, hy, jsOp]

theorem samples_lengths (e : noise.State α) (b : Band α) (width height : ℕ) (time : α) :
    1 ≤ (samples e b width height time).1.length ∧
      (samples e b width height time).2.length = (samples e b width height time).1.length := by
  have hl := length_samples e b width height time
  have h0 := steps_nonneg (α := α) width
  constructor <;> omega

end Band

/-- C11, evaluated where it fails: the page is hidden at startup, `init` calls
`animate` all the same (request 1 pending); the page becomes visible and the
handler calls `animate` again (requests 1 and 2 pending, `animationId = 2`);
the page becomes hidden and the handler cancels request 2 only: request 1 is
still pending after the stop. -/
theorem C11_pending_after_stop :
    Driver.init.pending = [1] ∧
      (Driver.run Driver.init [Driver.Event.visible]).pending = [1, 2] ∧
      (Driver.run Driver.init [Driver.Event.visible]).animationId = some 2 ∧
      (Driver.run Driver.init [Driver.Event.visible, Driver.Event.hidden]).pending = [1] := by
  decide

/-- C12: for every band with base alpha `a` in `(0,1]`, on an engine that
satisfies the table invariant and a positive working width, `draw` returns
having added exactly five colour stops, at offsets `0, 0.2, 0.5, 0.8, 1` with
alphas `0, 0.6a, a, 0.6a, 0`; the alphas read the same in both directions and
the offsets mirror about `0.5`, the alphas do not decrease up to the midpoint
and do not increase after it, and none exceeds `a`. -/
theorem C12_gradient_stops (e : State α) (hT : TableInv e) (b : Band α) (ha : 0 < b.alpha)
    (ha1 : b.alpha ≤ 1) (width height : ℕ) (hw : 0 < width) (time : α) :
    ∃ cmds, Band.draw e b width height time = some cmds ∧
      (cmds.filterMap Cmd.stop).map Prod.fst = [0, 0.2, 0.5, 0.8, 1] ∧
      (cmds.filterMap Cmd.stop).map Prod.snd =
        [0, 0.6 * b.alpha, b.alpha, 0.6 * b.alpha, 0] ∧
      ((cmds.filterMap Cmd.stop).map Prod.snd).reverse =
        (cmds.filterMap Cmd.stop).map Prod.snd ∧
      (((cmds.filterMap Cmd.stop).map Prod.fst).reverse).map (fun o => 1 - o) =
        (cmds.filterMap Cmd.stop).map Prod.fst ∧
      (((cmds.filterMap Cmd.stop).map Prod.snd).take 3).Pairwise (fun p q => p ≤ q) ∧
      (((cmds.filterMap Cmd.stop).map Prod.snd).drop 2).Pairwise (fun p q => q ≤ p) ∧
      ∀ p, p ∈ (cmds.filterMap Cmd.stop).map Prod.snd → p ≤ b.alpha := by
  obtain ⟨h1, h2⟩ := Band.samples_lengths e b width height time
  obtain ⟨n1, n2⟩ := Band.samples_numbers e hT.2.2 b width height hw time
  have hr := Band.render_eq b height _ _ _ h1 rfl h2 n1 n2
  refine ⟨_, hr, ?_⟩
  have hs : (([Cmd.beginPath, Cmd.moveTo (some 0) (some (height : α)),
        Cmd.createLinearGradient (some 0)
          (Band.avgY (Band.samples e b width height time).1) (some 0)
          (Band.avgY (Band.samples e b width height time).2)] ++
      Band.colorStops b ++ [Cmd.beginPath] ++
      Band.pathSpec (Band.samples e b width height time).1
        (Band.samples e b width height time).2 ++
      [Cmd.fillStyle, Cmd.fill]).filterMap Cmd.stop) =
      [(0, 0), (0.2, 0.6 * b.alpha), (0.5, b.alpha), (0.8, 0.6 * b.alpha), (1, 0)] := by
    simp only [List.filterMap_append, Band.pathSpec_stop, List.append_nil]
    simp [Band.colorStops, Cmd.stop, List.filterMap_cons, mul_comm]
  rw [hs]
  have e6 : (0.6 : α) * b.alpha = 3 / 5 * b.alpha := by norm_num
  have e2 : (0.2 : α) = 1 / 5 := by norm_num
  have e5 : (0.5 : α) = 1 / 2 := by norm_num
  have e8 : (0.8 : α) = 4 / 5 := by norm_num
  refine ⟨by simp, by simp, by simp, ?_, ?_, ?_, ?_⟩
  · simp only [List.map_cons, List.map_nil, List.reverse_cons, List.reverse_nil,
      List.nil_append, List.cons_append, e2, e5, e8]
    norm_num
  · simp only [List.map_cons, List.map_nil, List.take, List.pairwise_cons, List.mem_cons,
      List.mem_singleton, List.mem_nil_iff, or_false, forall_eq_or_imp, forall_eq,
      List.Pairwise.nil, and_true, false_imp_iff, implies_true, e6]
    repeat' constructor
    all_goals linarith
  · simp only [List.map_cons, List.map_nil, List.drop, List.pairwise_cons, List.mem_cons,
      List.mem_singleton, List.mem_nil_iff, or_false, forall_eq_or_imp, forall_eq,
      List.Pairwise.nil, and_true, false_imp_iff, implies_true, e6]
    repeat' constructor
    all_goals linarith
  · intro p hp
    simp only [List.map_cons, List.map_nil, List.mem_cons, List.mem_singleton,
      List.mem_nil_iff, or_false, e6] at hp
    rcases hp with rfl | rfl | rfl | rfl | rfl <;> linarith

/-- Witness for C12: the first configured band (alpha `0.22`) on the tables
built from the example stream, working raster 200 by 100, time 7. -/
theorem C12_gradient_stops_witness :
    TableInv (init rndExample (initial ℚ)) ∧
    0 < (firstBand 0).alpha ∧ (firstBand 0).alpha ≤ 1 ∧ 0 < 200 ∧
    ∃ cmds, Band.draw (init rndExample (initial ℚ)) (firstBand 0) 200 100 7 = some cmds ∧
      (cmds.filterMap Cmd.stop).map Prod.fst = [0, 0.2, 0.5, 0.8, 1] ∧
      (cmds.filterMap Cmd.stop).map Prod.snd =
        [0, 0.6 * (firstBand 0).alpha, (firstBand 0).alpha, 0.6 * (firstBand 0).alpha, 0] ∧
      ((cmds.filterMap Cmd.stop).map Prod.snd).reverse =
        (cmds.filterMap Cmd.stop).map Prod.snd ∧
      (((cmds.filterMap Cmd.stop).map Prod.fst).reverse).map (fun o => 1 - o) =
        (cmds.filterMap Cmd.stop).map Prod.fst ∧
      (((cmds.filterMap Cmd.stop).map Prod.snd).take 3).Pairwise (fun p q => p ≤ q) ∧
      (((cmds.filterMap Cmd.stop).map Prod.snd).drop 2).Pairwise (fun p q => q ≤ p) ∧
      ∀ p, p ∈ (cmds.filterMap Cmd.stop).map Prod.snd → p ≤ (firstBand 0).alpha :=
  have hT := tableInv_init rndExample rndExample_range (initial ℚ) (by simp [initial])
    (by simp [initial])
  ⟨hT, by norm_num [firstBand], by norm_num [firstBand], by norm_num,
    C12_gradient_stops (init rndExample (initial ℚ)) hT (firstBand 0)
      (by norm_num [firstBand]) (by norm_num [firstBand]) 200 100 (by norm_num) 7⟩

/-- C14: for every band (thickness fraction not negative), time, and engine
state produced by `init`, at every `x` position `q` the local thickness
`bandH * (0.8 + thickNoise * 0.4)`, with
`thickNoise = noise.get(q * 3 + noiseOffset + 200, t * 0.5, 2.0)`, is a number in
`[0.4 * bandH, 1.2 * bandH]`, `bandH = bandWidth * height` being the nominal
thickness; for a positive working width this is the `localThick` of every
iteration of the sampling loop. -/
theorem C14_local_thickness (rnd : ℕ → α) (hr : ∀ n, 0 ≤ rnd n ∧ rnd n < 1) (s : State α)
    (b : Band α) (hb : 0 ≤ b.bandWidth) (width height : ℕ) (time : α) :
    (∀ q : α, ∃ tn, get (init rnd s) (q * 3 + b.noiseOffset + 200) (Band.t b time * 0.5) 2.0
        = some tn ∧
      0.4 * Band.bandH b height ≤ Band.bandH b height * (0.8 + tn * 0.4) ∧
      Band.bandH b height * (0.8 + tn * 0.4) ≤ 1.2 * Band.bandH b height) ∧
    (0 < width → ∀ i, ∃ L, Band.localThick (init rnd s) b width height time i = some L ∧
      0.4 * Band.bandH b height ≤ L ∧ L ≤ 1.2 * Band.bandH b height) := by
  have hL := lookups_init rnd hr s
  have hH : 0 ≤ Band.bandH b height := by
    have : (0 : α) ≤ height := Nat.cast_nonneg height
    exact mul_nonneg hb this
  have key : ∀ q : α,
      0.4 * Band.bandH b height ≤ Band.bandH b height *
        (0.8 + getVal (init rnd s) (q * 3 + b.noiseOffset + 200) (Band.t b time * 0.5) 2.0
          * 0.4) ∧
      Band.bandH b height *
        (0.8 + getVal (init rnd s) (q * 3 + b.noiseOffset + 200) (Band.t b time * 0.5) 2.0
          * 0.4) ≤ 1.2 * Band.bandH b height := by
    intro q
    obtain ⟨g1, g2⟩ := getVal_unit_init rnd hr s (q * 3 + b.noiseOffset + 200)
      (Band.t b time * 0.5) 2.0
    have e1 : (0.8 : α) = 4 / 5 := by norm_num
    have e2 : (0.4 : α) = 2 / 5 := by norm_num
    have e3 : (1.2 : α) = 6 / 5 := by norm_num
    rw [e1, e2, e3]
    constructor
    · nlinarith [mul_nonneg hH (by linarith : (0 : α) ≤ 1 + getVal (init rnd s)
        (q * 3 + b.noiseOffset + 200) (Band.t b time * 0.5) 2.0)]
    · nlinarith [mul_nonneg hH (by linarith : (0 : α) ≤ 1 - getVal (init rnd s)
        (q * 3 + b.noiseOffset + 200) (Band.t b time * 0.5) 2.0)]
  constructor
  · intro q
    exact ⟨_, get_eq_some _ hL _ _ _, key q⟩
  · intro hw i
    exact ⟨_, Band.localThick_eq (init rnd s) hL b width height time i _
      (Band.xNorm_eq width i hw), key _⟩

/-- Witness for C14: the first configured band on the tables built from the
example stream, working raster 200 by 100, time 7, iteration 5. -/
theorem C14_local_thickness_witness :
    (∀ n, 0 ≤ rndExample n ∧ rndExample n < 1) ∧ 0 ≤ (firstBand 0).bandWidth ∧ 0 < 200 ∧
      ∃ L, Band.localThick (init rndExample (initial ℚ)) (firstBand 0) 200 100 7 5 = some L ∧
        0.4 * Band.bandH (firstBand 0) 100 ≤ L ∧ L ≤ 1.2 * Band.bandH (firstBand 0) 100 :=
  ⟨rndExample_range, by norm_num [firstBand], by norm_num,
    (C14_local_thickness rndExample rndExample_range (initial ℚ) (firstBand 0)
      (by norm_num [firstBand]) 200 100 7).2 (by norm_num) 5⟩

/-- C17: for every geometry of `n ≥ 2` top and bottom points, the path `draw`
builds after its final `beginPath` is exactly the path of the specification
(`moveTo(top[0])`; for `i = 1..n-1` a curve with control point `top[i-1]` and
endpoint the midpoint of `top[i-1]` and `top[i]`; `lineTo(top[n-1])`;
`lineTo(bot[n-1])`; for `i = n-2` down to `0` a curve with control point
`bot[i+1]` and endpoint the midpoint of `bot[i+1]` and `bot[i]`; `closePath`);
it holds no `fill`, `stroke` or `beginPath`, and its curves number `2(n-1)`.
When every ordinate is a number (so that `createLinearGradient` does not
throw), the calls `draw` makes are: the two calls before the sampling loop,
the gradient and its five stops, the final `beginPath`, that path, then the
`fillStyle` assignment and one `fill`; no call at all is a `stroke`. -/
theorem C17_path_construction (b : Band α) (height : ℕ) (tops bots : List (Point α))
    (n : ℕ) (hn : 2 ≤ n) (ht : tops.length = n) (hb : bots.length = n) :
    Band.path tops bots = some (Band.pathSpec tops bots) ∧
      (∀ c, c ∈ Band.pathSpec tops bots →
        c ≠ Cmd.fill ∧ c ≠ Cmd.stroke ∧ c ≠ Cmd.beginPath ∧ c ≠ Cmd.fillStyle) ∧
      (Band.pathSpec tops bots).countP Cmd.isCurve = 2 * (n - 1) ∧
      ((∀ p, p ∈ tops → ∃ v, p.y = some v) → (∀ p, p ∈ bots → ∃ v, p.y = some v) →
        ∃ cmds, Band.render b height tops bots = some cmds ∧
          cmds = [Cmd.beginPath, Cmd.moveTo (some 0) (some (height : α)),
              Cmd.createLinearGradient (some 0) (Band.avgY tops) (some 0) (Band.avgY bots)] ++
            Band.colorStops b ++ [Cmd.beginPath] ++ Band.pathSpec tops bots ++
            [Cmd.fillStyle, Cmd.fill] ∧
          ∀ c, c ∈ cmds → c ≠ Cmd.stroke) := by
  refine ⟨Band.path_eq tops bots n (by omega) ht hb, Band.pathSpec_members tops bots, ?_, ?_⟩
  · rw [Band.pathSpec_curves, ht]
  · intro hty hby
    refine ⟨_, Band.render_eq b height tops bots n (by omega) ht hb hty hby, rfl, ?_⟩
    intro c hc
    simp only [List.mem_append, List.mem_cons, List.mem_singleton, List.mem_nil_iff,
      or_false, Band.colorStops] at hc
    rcases hc with (((h | h) | h) | h) | h
    · rcases h with rfl | rfl | rfl <;> simp
    · rcases h with rfl | rfl | rfl | rfl | rfl <;> simp
    · rcases h with rfl; simp
    · exact (Band.pathSpec_members tops bots c h).2.1
    · rcases h with rfl | rfl <;> simp

/-- Witness for C17: two top points and two bottom points, all ordinates
numbers. -/
theorem C17_path_construction_witness :
    2 ≤ 2 ∧
    (∀ p, p ∈ [(⟨some 0, some 1⟩ : Point ℚ), ⟨some 3, some 2⟩] → ∃ v, p.y = some v) ∧
    (∀ p, p ∈ [(⟨some 0, some 5⟩ : Point ℚ), ⟨some 3, some 6⟩] → ∃ v, p.y = some v) ∧
    Band.path [(⟨some 0, some 1⟩ : Point ℚ), ⟨some 3, some 2⟩]
        [⟨some 0, some 5⟩, ⟨some 3, some 6⟩] =
      some (Band.pathSpec [(⟨some 0, some 1⟩ : Point ℚ), ⟨some 3, some 2⟩]
        [⟨some 0, some 5⟩, ⟨some 3, some 6⟩]) ∧
    (Band.pathSpec [(⟨some 0, some 1⟩ : Point ℚ), ⟨some 3, some 2⟩]
        [⟨some 0, some 5⟩, ⟨some 3, some 6⟩]).countP Cmd.isCurve = 2 * (2 - 1) ∧
    ∃ cmds, Band.render (firstBand 0) 100
        [⟨some 0, some 1⟩, ⟨some 3, some 2⟩] [⟨some 0, some 5⟩, ⟨some 3, some 6⟩] = some cmds ∧
      cmds = [Cmd.beginPath, Cmd.moveTo (some 0) (some ((100 : ℕ) : ℚ)),
          Cmd.createLinearGradient (some 0)
            (Band.avgY [⟨some 0, some 1⟩, ⟨some 3, some 2⟩]) (some 0)
            (Band.avgY [⟨some 0, some 5⟩, ⟨some 3, some 6⟩])] ++
        Band.colorStops (firstBand 0) ++ [Cmd.beginPath] ++
        Band.pathSpec [⟨some 0, some 1⟩, ⟨some 3, some 2⟩]
          [⟨some 0, some 5⟩, ⟨some 3, some 6⟩] ++
        [Cmd.fillStyle, Cmd.fill] ∧
      ∀ c, c ∈ cmds → c ≠ Cmd.stroke :=
  have hty : ∀ p, p ∈ [(⟨some 0, some 1⟩ : Point ℚ), ⟨some 3, some 2⟩] →
      ∃ v, p.y = some v := by
    intro p hp
    simp only [List.mem_cons, List.mem_singleton, List.mem_nil_iff, or_false] at hp
    rcases hp with rfl | rfl
    · exact ⟨1, rfl⟩
    · exact ⟨2, rfl⟩
  have hby : ∀ p, p ∈ [(⟨some 0, some 5⟩ : Point ℚ), ⟨some 3, some 6⟩] →
      ∃ v, p.y = some v := by
    intro p hp
    simp only [List.mem_cons, List.mem_singleton, List.mem_nil_iff, or_false] at hp
    rcases hp with rfl | rfl
    · exact ⟨5, rfl⟩
    · exact ⟨6, rfl⟩
  have h := C17_path_construction (firstBand 0) 100 [⟨some 0, some 1⟩, ⟨some 3, some 2⟩]
    [⟨some 0, some 5⟩, ⟨some 3, some 6⟩] 2 (le_refl 2) rfl rfl
  ⟨le_refl 2, hty, hby, h.1, h.2.2.1, h.2.2.2 hty hby⟩

/-! ## Worked examples -/

/-- The path `draw` builds for two top and two bottom points. -/
theorem path_two_points :
    Band.path [(⟨some 0, some 1⟩ : Point ℚ), ⟨some 3, some 2⟩]
        [⟨some 0, some 5⟩, ⟨some 3, some 6⟩] =
      some [Cmd.moveTo (some 0) (some 1),
        Cmd.quadraticCurveTo (some 0) (some 1) (some (3 / 2)) (some (3 / 2)),
        Cmd.lineTo (some 3) (some 2), Cmd.lineTo (some 3) (some 6),
        Cmd.quadraticCurveTo (some 3) (some 6) (some (3 / 2)) (some (11 / 2)),
        Cmd.closePath] := by
  norm_num [Band.path, Band.topCurves, Band.botEdge, Band.mid, jsOp]

/-- When the page is visible at startup, hiding it cancels the only pending
request, and showing it again leaves one request pending. -/
theorem pending_visible_start :
    (Driver.run Driver.init [Driver.Event.hidden]).pending = [] ∧
      (Driver.run Driver.init [Driver.Event.hidden, Driver.Event.visible]).pending = [2] ∧
      (Driver.run Driver.init
        [Driver.Event.hidden, Driver.Event.visible, Driver.Event.tick 2]).pending = [3] := by
  decide

end FlowField
